import Mathlib

/-!
Verification development for the toy ahead-of-time compiler in this
repository (lexer, parser, semantic analyzer, optimizer, two assembly
code generators).  Every definition below is a shallow embedding of a
function of the Rust sources; the file then settles the frozen claims
about the pipeline as theorems over those definitions.

Conventions used throughout:
* Rust `HashMap`/`HashSet` values are modelled as association lists /
  lists; the sources only ever use `get`/`insert`/`remove`/`contains`
  on them, never iteration, so the representation is observationally
  faithful.
* Rust `i32`/`i64` values are modelled as `Int`.  No claim exercises
  integer overflow (the sources would panic on it in debug builds), so
  wrap-around is not modelled.
* A Rust panic (`expect`/`unreachable!`) is modelled as the `error`
  branch of `Except` (or `none`), carrying the panic message.
* `Vec` scope/register stacks are kept in a faithful orientation noted
  at each structure.
-/

/-- `BinOp` from the repository's AST module (`crate::ast::BinOp`, also
`crate::parsing::ast::BinOp`).  The AST source file itself is not in the
repository snapshot; the four variants are exactly the ones matched
exhaustively by `semantic.rs`, `optimizer.rs`, `codegen.rs`, `arm64.rs`
and built by `parser.rs`. -/
inductive BinOp
  | Add
  | Sub
  | GreaterThan
  | LessThan
  deriving DecidableEq, Repr

namespace Ast

/-- Modelled from the spec: `crate::ast::Expr`.  The file `src/ast.rs` is
missing from the repository snapshot; the spec lists the expression
variants and the consumers `semantic.rs` and `optimizer.rs` match these
five variants exhaustively (integer literal, string literal, identifier
reference, assignment, binary operation).  `codegen.rs` additionally has
an arm for a boolean-literal variant, which no producer of this AST can
build and no claim touches; since `semantic.rs`/`optimizer.rs` pattern
matches are exhaustive without it, it is omitted here.  The spec's
nondeterministic boolean expression belongs to `crate::parsing::ast`
(the parser's AST), not to this one. -/
inductive Expr
  | IntegerLiteral (n : Int)
  | StringLiteral (s : String)
  | Identifier (name : String)
  | Assign (name : String) (value : Expr)
  | Binary (left : Expr) (op : BinOp) (right : Expr)
  deriving Repr

/-- Modelled from the spec: `crate::ast::Stmt` (file missing from the
snapshot).  `semantic.rs`, `optimizer.rs` and `codegen.rs` all match
exactly these three variants: variable declaration, print, and `if` with
a statement-list `then` branch and an optional statement-list `else`
branch. -/
inductive Stmt
  | VarDeclaration (name : String) (value : Expr)
  | Print (e : Expr)
  | If (condition : Expr) (thenBlock : List Stmt) (elseBlock : Option (List Stmt))
  deriving Repr

/-- Structural equality test on expressions.  `optimizer.rs` compares
ASTs by comparing their `Debug` strings (`format!("{:?}", …)`); for this
AST the derived `Debug` rendering is injective, so string equality of
the renderings coincides with this structural equality. -/
def beqExpr : Expr → Expr → Bool
  | .IntegerLiteral n, .IntegerLiteral m => n == m
  | .StringLiteral s, .StringLiteral t => s == t
  | .Identifier a, .Identifier b => a == b
  | .Assign a v, .Assign b w => a == b && beqExpr v w
  | .Binary l o r, .Binary l2 o2 r2 => beqExpr l l2 && o == o2 && beqExpr r r2
  | _, _ => false

mutual

/-- Structural equality test on statements (see `beqExpr`). -/
def beqStmt : Stmt → Stmt → Bool
  | .VarDeclaration a v, .VarDeclaration b w => a == b && beqExpr v w
  | .Print e, .Print f => beqExpr e f
  | .If c t e, .If c2 t2 e2 =>
    beqExpr c c2 && beqStmts t t2 &&
      (match e, e2 with
       | none, none => true
       | some xs, some ys => beqStmts xs ys
       | _, _ => false)
  | _, _ => false

/-- Structural equality test on statement lists (see `beqExpr`). -/
def beqStmts : List Stmt → List Stmt → Bool
  | [], [] => true
  | x :: xs, y :: ys => beqStmt x y && beqStmts xs ys
  | _, _ => false

end

end Ast

namespace Optimizer

open Ast

/-- `ConstValue` from `optimizer.rs`: a compile-time constant value. -/
inductive ConstValue
  | Int (n : Int)
  | String (s : String)
  | Bool (b : Bool)
  deriving DecidableEq, Repr

/-- The `Optimizer` struct from `optimizer.rs`: the constant table
(`HashMap<String, ConstValue>`, modelled as an association list) and the
set of used variable names (`HashSet<String>`, modelled as a
duplicate-free list). -/
structure OptimizerState where
  constants : List (String × ConstValue)
  usedVariables : List String
  deriving Repr

/-- `Optimizer::new`. -/
def OptimizerState.new : OptimizerState := ⟨[], []⟩

/-- `HashMap::get` on the constant table. -/
def hmGet (m : List (String × ConstValue)) (k : String) : Option ConstValue :=
  (m.find? (fun p => p.1 == k)).map (fun p => p.2)

/-- `HashMap::insert` on the constant table (replaces the value when the
key is present). -/
def hmInsert (m : List (String × ConstValue)) (k : String) (v : ConstValue) :
    List (String × ConstValue) :=
  if (m.find? (fun p => p.1 == k)).isSome then
    m.map (fun p => if p.1 == k then (k, v) else p)
  else (k, v) :: m

/-- `HashMap::remove` on the constant table. -/
def hmRemove (m : List (String × ConstValue)) (k : String) :
    List (String × ConstValue) :=
  m.filter (fun p => !(p.1 == k))

/-- `HashSet::insert` on the used-variable set. -/
def hsInsert (l : List String) (k : String) : List String :=
  if l.contains k then l else l ++ [k]

/-- `Optimizer::fold_binary_operation`: compute a binary operation on
two constant values, returning the resulting literal expression, or
`none` for a type-incompatible combination.  Note that `Int>Int` and
`Int<Int` produce `IntegerLiteral 1` or `IntegerLiteral 0` — the source
comments "Result is boolean, but we don't have boolean literals yet". -/
def foldBinaryOperation (left : ConstValue) (op : BinOp) (right : ConstValue) :
    Option Expr :=
  match left, op, right with
  | .Int l, .Add, .Int r => some (.IntegerLiteral (l + r))
  | .Int l, .Sub, .Int r => some (.IntegerLiteral (l - r))
  | .Int l, .GreaterThan, .Int r => some (.IntegerLiteral (if l > r then 1 else 0))
  | .Int l, .LessThan, .Int r => some (.IntegerLiteral (if l < r then 1 else 0))
  | .String l, .Add, .String r => some (.StringLiteral (l ++ r))
  | _, _, _ => none

/-- The non-recursive cases of `Optimizer::try_evaluate_to_const`,
applied to `fold_binary_operation`'s output.  The source's `Binary` arm
runs `try_evaluate_to_const` again on the folded expression; since
`fold_binary_operation` only ever returns `IntegerLiteral`/
`StringLiteral` nodes (lemma `foldBinaryOperation_literal` below), that
inner call always lands in the non-recursive literal cases, which this
function reproduces verbatim; the recursion is cut here so that
`tryEvaluateToConst` is structurally recursive. -/
def constOfFolded (st : OptimizerState) (e : Expr) : Option ConstValue :=
  match e with
  | .IntegerLiteral n => some (.Int n)
  | .StringLiteral s => some (.String s)
  | .Identifier name => hmGet st.constants name
  | _ => none

/-- `Optimizer::try_evaluate_to_const`: evaluate an expression to a
compile-time constant if possible. -/
def tryEvaluateToConst (st : OptimizerState) : Expr → Option ConstValue
  | .IntegerLiteral n => some (.Int n)
  | .StringLiteral s => some (.String s)
  | .Identifier name => hmGet st.constants name
  | .Binary left op right => do
    let leftVal ← tryEvaluateToConst st left
    let rightVal ← tryEvaluateToConst st right
    (foldBinaryOperation leftVal op rightVal).bind (constOfFolded st)
  | .Assign _ _ => none

/-- Every successful `fold_binary_operation` is a literal node. -/
theorem foldBinaryOperation_literal (l : ConstValue) (op : BinOp) (r : ConstValue)
    (e : Expr) (h : foldBinaryOperation l op r = some e) :
    (∃ n, e = .IntegerLiteral n) ∨ (∃ s, e = .StringLiteral s) := by
  cases l <;> cases op <;> cases r <;>
    simp [foldBinaryOperation] at h <;> simp [← h]

/-- Steps 3 and 4 of `Optimizer::optimize_binary_expression` —
the algebraic simplifications (`x+0`, `0+x`, `x-0`, `x-x`) tried after
constant folding failed, and the final rebuilt `Binary` node. -/
def afterFold (optLeft : Expr) (op : BinOp) (optRight : Expr)
    (leftConst rightConst : Option ConstValue) : Expr :=
  match op with
  | .Add =>
    if rightConst == some (.Int 0) then optLeft
    else if leftConst == some (.Int 0) then optRight
    else .Binary optLeft op optRight
  | .Sub =>
    if rightConst == some (.Int 0) then optLeft
    else
      match optLeft, optRight with
      | .Identifier l, .Identifier r =>
        if l == r then .IntegerLiteral 0 else .Binary optLeft op optRight
      | _, _ => .Binary optLeft op optRight
  | _ => .Binary optLeft op optRight

/-- Steps 2–4 of `Optimizer::optimize_binary_expression`, taking the two
already-optimized operands: try constant folding, then the algebraic
identities, else rebuild the node.  (Step 1 — optimizing the operands —
is performed by the caller `optimizeExpression` so that the recursion
stays structural; `optimizeBinaryExpression` below reassembles the
source function exactly.) -/
def binaryRest (st : OptimizerState) (optLeft : Expr) (op : BinOp) (optRight : Expr) :
    Expr :=
  let leftConst := tryEvaluateToConst st optLeft
  let rightConst := tryEvaluateToConst st optRight
  match leftConst, rightConst with
  | some l, some r =>
    match foldBinaryOperation l op r with
    | some result => result
    | none => afterFold optLeft op optRight leftConst rightConst
  | _, _ => afterFold optLeft op optRight leftConst rightConst

/-- `Optimizer::optimize_expression`.  Takes `&self` in the source — it
reads the constant table but can never modify it (in particular the
`Assign` arm only optimizes the assigned value; it does not invalidate
the target's recorded constant). -/
def optimizeExpression (st : OptimizerState) : Expr → Expr
  | .IntegerLiteral n => .IntegerLiteral n
  | .StringLiteral s => .StringLiteral s
  | .Identifier name =>
    match hmGet st.constants name with
    | some (.Int n) => .IntegerLiteral n
    | some (.String s) => .StringLiteral s
    | some (.Bool _) => .Identifier name
    | none => .Identifier name
  | .Binary left op right =>
    binaryRest st (optimizeExpression st left) op (optimizeExpression st right)
  | .Assign name value => .Assign name (optimizeExpression st value)

/-- `Optimizer::optimize_binary_expression` as a named function (its
body is inlined into `optimizeExpression`'s `Binary` arm above). -/
def optimizeBinaryExpression (st : OptimizerState) (left : Expr) (op : BinOp)
    (right : Expr) : Expr :=
  binaryRest st (optimizeExpression st left) op (optimizeExpression st right)

theorem optimizeExpression_binary (st : OptimizerState) (l : Expr) (op : BinOp)
    (r : Expr) :
    optimizeExpression st (.Binary l op r) = optimizeBinaryExpression st l op r := rfl

mutual

/-- `Optimizer::optimize_statement` (with `optimize_if_statement`'s body
inlined in the `If` arm so that the mutual recursion is structural;
`optimizeIfStatement` below restates it as the named source function).
Returns the updated optimizer state and `none` when the statement is
eliminated. -/
def optimizeStatement (st : OptimizerState) : Stmt → OptimizerState × Option Stmt
  | .VarDeclaration name value =>
    let optimizedValue := optimizeExpression st value
    let st :=
      match tryEvaluateToConst st optimizedValue with
      | some constVal => { st with constants := hmInsert st.constants name constVal }
      | none => { st with constants := hmRemove st.constants name }
    (st, some (.VarDeclaration name optimizedValue))
  | .Print e => (st, some (.Print (optimizeExpression st e)))
  | .If condition thenBlock elseBlock =>
    let optimizedCondition := optimizeExpression st condition
    match tryEvaluateToConst st optimizedCondition with
    | some (.Bool true) =>
      let r := optimizeStatements st thenBlock
      (r.1, some (.If optimizedCondition r.2 none))
    | some (.Bool false) =>
      match elseBlock with
      | some elseStmts =>
        let r := optimizeStatements st elseStmts
        (r.1, some (.If optimizedCondition [] (some r.2)))
      | none => (st, none)
    | _ =>
      let r := optimizeStatements st thenBlock
      match elseBlock with
      | some es =>
        let r2 := optimizeStatements r.1 es
        (r2.1, some (.If optimizedCondition r.2 (some r2.2)))
      | none => (r.1, some (.If optimizedCondition r.2 none))

/-- `Optimizer::optimize_statements`: optimize a statement list, keeping
the statements that were not eliminated.  (Rust tuple destructuring
`let (a, b) = e` is written with `.1`/`.2` projections here and below.) -/
def optimizeStatements (st : OptimizerState) : List Stmt → OptimizerState × List Stmt
  | [] => (st, [])
  | s :: rest =>
    let r := optimizeStatement st s
    let r2 := optimizeStatements r.1 rest
    match r.2 with
    | some o => (r2.1, o :: r2.2)
    | none => (r2.1, r2.2)

end

/-- `Optimizer::optimize_if_statement` as a named function; its body is
the `If` arm of `optimizeStatement` (theorem `optimizeStatement_if`). -/
def optimizeIfStatement (st : OptimizerState) (condition : Expr)
    (thenBlock : List Stmt) (elseBlock : Option (List Stmt)) :
    OptimizerState × Option Stmt :=
  let optimizedCondition := optimizeExpression st condition
  match tryEvaluateToConst st optimizedCondition with
  | some (.Bool true) =>
    let r := optimizeStatements st thenBlock
    (r.1, some (.If optimizedCondition r.2 none))
  | some (.Bool false) =>
    match elseBlock with
    | some elseStmts =>
      let r := optimizeStatements st elseStmts
      (r.1, some (.If optimizedCondition [] (some r.2)))
    | none => (st, none)
  | _ =>
    let r := optimizeStatements st thenBlock
    match elseBlock with
    | some es =>
      let r2 := optimizeStatements r.1 es
      (r2.1, some (.If optimizedCondition r.2 (some r2.2)))
    | none => (r.1, some (.If optimizedCondition r.2 none))

theorem optimizeStatement_if (st : OptimizerState) (c : Expr) (t : List Stmt)
    (e : Option (List Stmt)) :
    optimizeStatement st (.If c t e) = optimizeIfStatement st c t e :=
  (optimizeStatement.eq_def st (.If c t e)).trans rfl

/-- `Optimizer::collect_used_in_expression`: record every identifier
(and assignment target) occurring in an expression. -/
def collectUsedInExpr (st : OptimizerState) : Expr → OptimizerState
  | .IntegerLiteral _ => st
  | .StringLiteral _ => st
  | .Identifier name => { st with usedVariables := hsInsert st.usedVariables name }
  | .Binary left _ right => collectUsedInExpr (collectUsedInExpr st left) right
  | .Assign name value =>
    collectUsedInExpr
      { st with usedVariables := hsInsert st.usedVariables name } value

mutual

/-- `Optimizer::collect_used_in_statement`. -/
def collectUsedInStatement (st : OptimizerState) : Stmt → OptimizerState
  | .VarDeclaration _ value => collectUsedInExpr st value
  | .Print e => collectUsedInExpr st e
  | .If condition thenBlock elseBlock =>
    let st := collectUsedInExpr st condition
    let st := collectUsedVariables st thenBlock
    match elseBlock with
    | some elseStmts => collectUsedVariables st elseStmts
    | none => st

/-- `Optimizer::collect_used_variables`. -/
def collectUsedVariables (st : OptimizerState) : List Stmt → OptimizerState
  | [] => st
  | s :: rest => collectUsedVariables (collectUsedInStatement st s) rest

end

/-- `Optimizer::eliminate_dead_code`: drop declarations whose name is
not in the used-variable set. -/
def eliminateDeadCode (st : OptimizerState) (statements : List Stmt) : List Stmt :=
  statements.filterMap (fun stmt =>
    match stmt with
    | .VarDeclaration name _ =>
      if st.usedVariables.contains name then some stmt else none
    | _ => some stmt)

/-- The body of `Optimizer::optimize`'s fixed-point loop.  Each turn
clears the used-variable set, recollects it, optimizes the statements,
eliminates dead code, and stops when the program stopped changing
(the source compares `Debug` strings; `beqStmts` is the structural
equivalent) or after more than 100 iterations.  The `fuel` argument only
makes the recursion structural: it starts at 101, so the `0` base case
is never reached before the iteration bound fires (`optimizeGo` is
entered with `iteration + 1 ≤ fuel` throughout). -/
def optimizeGo (st : OptimizerState) (current : List Stmt) (iteration : Nat) :
    Nat → List Stmt
  | 0 => current
  | fuel + 1 =>
    let iteration := iteration + 1
    let st := { st with usedVariables := [] }
    let st := collectUsedVariables st current
    let (st, cur1) := optimizeStatements st current
    let cur2 := eliminateDeadCode st cur1
    if beqStmts current cur2 then cur2
    else if iteration > 100 then cur2
    else optimizeGo st cur2 iteration fuel

/-- `Optimizer::optimize`, started on a fresh `Optimizer::new()` state
exactly as every caller in the repository does. -/
def optimize (statements : List Stmt) : List Stmt :=
  optimizeGo OptimizerState.new statements 0 101

end Optimizer

namespace Semantic

open Ast

/-- `Type` from `semantic.rs` (named `Ty` here because `Type` is a Lean
keyword): the language's type lattice. -/
inductive Ty
  | Int
  | String
  | Bool
  | Unknown
  deriving DecidableEq, Repr

/-- The `{:?}` (`Debug`) rendering of `Ty`, used inside diagnostic
context strings. -/
def tyDebug : Ty → String
  | .Int => "Int"
  | .String => "String"
  | .Bool => "Bool"
  | .Unknown => "Unknown"

/-- `SemanticError` from `semantic.rs`. -/
inductive SemanticError
  | UndeclaredVariable (name : String)
  | Redeclaration (name : String)
  | InvalidAssignmentTarget (name : String)
  | TypeMismatch (expected : Ty) (found : Ty) (context : String)
  deriving DecidableEq, Repr

/-- One scope: a `HashMap<String, Type>` modelled as an association
list. -/
abbrev Scope := List (String × Ty)

/-- `HashMap::get` on a scope. -/
def scGet (m : Scope) (k : String) : Option Ty :=
  (m.find? (fun p => p.1 == k)).map (fun p => p.2)

/-- `HashMap::contains_key` on a scope. -/
def scContains (m : Scope) (k : String) : Bool :=
  (m.find? (fun p => p.1 == k)).isSome

/-- `HashMap::insert` on a scope. -/
def scInsert (m : Scope) (k : String) (v : Ty) : Scope :=
  if scContains m k then m.map (fun p => if p.1 == k then (k, v) else p)
  else (k, v) :: m

/-- The `SemanticAnalyzer` struct from `semantic.rs`.  The source keeps
the scope stack in a `Vec` with the innermost scope LAST; here the list
head is the innermost scope (the orientation is flipped), so a `Vec`
push is a list cons and `scopes.iter().rev()` is plain list order. -/
structure SemanticAnalyzer where
  scopes : List Scope
  errors : List SemanticError
  deriving Repr

/-- `SemanticAnalyzer::new`: one (global) scope, no errors. -/
def SemanticAnalyzer.new : SemanticAnalyzer := ⟨[[]], []⟩

/-- `SemanticAnalyzer::enter_scope`: push a fresh innermost scope. -/
def enterScope (st : SemanticAnalyzer) : SemanticAnalyzer :=
  { st with scopes := [] :: st.scopes }

/-- `SemanticAnalyzer::exit_scope`: pop the innermost scope, but never
the last remaining one. -/
def exitScope (st : SemanticAnalyzer) : SemanticAnalyzer :=
  if st.scopes.length > 1 then { st with scopes := st.scopes.tail } else st

/-- Walk the scope list innermost-outwards (the loop body of
`SemanticAnalyzer::lookup_variable`). -/
def lookupIn : List Scope → String → Option Ty
  | [], _ => none
  | scope :: rest, name =>
    match scGet scope name with
    | some t => some t
    | none => lookupIn rest name

/-- `SemanticAnalyzer::lookup_variable`. -/
def lookupVariable (st : SemanticAnalyzer) (name : String) : Option Ty :=
  lookupIn st.scopes name

/-- `SemanticAnalyzer::add_error`. -/
def addError (st : SemanticAnalyzer) (e : SemanticError) : SemanticAnalyzer :=
  { st with errors := st.errors ++ [e] }

/-- `SemanticAnalyzer::check_identifier`: the type when found, else an
`UndeclaredVariable` diagnostic and `Unknown`. -/
def checkIdentifier (st : SemanticAnalyzer) (name : String) : SemanticAnalyzer × Ty :=
  match lookupVariable st name with
  | some t => (st, t)
  | none => (addError st (.UndeclaredVariable name), .Unknown)

/-- `SemanticAnalyzer::check_expression`.  The bodies of
`check_binary_expression` and `check_assignment` are inlined into their
arms so that the recursion is structural; `checkBinaryExpression` and
`checkAssignment` below restate them as the named source functions.
The pair component `.2` is the inferred `Ty`; `.1` the updated state. -/
def checkExpression (st : SemanticAnalyzer) : Expr → SemanticAnalyzer × Ty
  | .IntegerLiteral _ => (st, .Int)
  | .StringLiteral _ => (st, .String)
  | .Identifier name => checkIdentifier st name
  | .Binary left op right =>
    let rl := checkExpression st left
    let rr := checkExpression rl.1 right
    let leftType := rl.2
    let rightType := rr.2
    let st := rr.1
    match op with
    | .Add =>
      if leftType == .Int && rightType == .Int then (st, .Int)
      else if leftType == .String && rightType == .String then (st, .String)
      else
        (addError st (.TypeMismatch leftType rightType
          "addition requires both sides to have the same type (Int+Int or String+String)"),
         .Unknown)
    | .Sub =>
      if leftType == .Int && rightType == .Int then (st, .Int)
      else
        (addError st (.TypeMismatch .Int
          (if leftType != .Int then leftType else rightType)
          "subtraction requires both operands to be Int"), .Unknown)
    | .GreaterThan | .LessThan =>
      if leftType == .Int && rightType == .Int then (st, .Bool)
      else
        (addError st (.TypeMismatch .Int
          (if leftType != .Int then leftType else rightType)
          "comparison requires both sides to be Int"), .Unknown)
  | .Assign name value =>
    match lookupVariable st name with
    | none => (addError st (.UndeclaredVariable name), .Unknown)
    | some varType =>
      let rv := checkExpression st value
      let valueType := rv.2
      let st :=
        if valueType != .Unknown && varType != valueType then
          addError rv.1 (.TypeMismatch varType valueType
            s!"cannot assign value of type {tyDebug valueType} to variable '{name}' of type {tyDebug varType}")
        else rv.1
      (st, valueType)

/-- `SemanticAnalyzer::check_binary_expression` as a named function; its
body is the `Binary` arm of `checkExpression` (theorem
`checkExpression_binary`). -/
def checkBinaryExpression (st : SemanticAnalyzer) (left : Expr) (op : BinOp)
    (right : Expr) : SemanticAnalyzer × Ty :=
  let rl := checkExpression st left
  let rr := checkExpression rl.1 right
  let leftType := rl.2
  let rightType := rr.2
  let st := rr.1
  match op with
  | .Add =>
    if leftType == .Int && rightType == .Int then (st, .Int)
    else if leftType == .String && rightType == .String then (st, .String)
    else
      (addError st (.TypeMismatch leftType rightType
        "addition requires both sides to have the same type (Int+Int or String+String)"),
       .Unknown)
  | .Sub =>
    if leftType == .Int && rightType == .Int then (st, .Int)
    else
      (addError st (.TypeMismatch .Int
        (if leftType != .Int then leftType else rightType)
        "subtraction requires both operands to be Int"), .Unknown)
  | .GreaterThan | .LessThan =>
    if leftType == .Int && rightType == .Int then (st, .Bool)
    else
      (addError st (.TypeMismatch .Int
        (if leftType != .Int then leftType else rightType)
        "comparison requires both sides to be Int"), .Unknown)

theorem checkExpression_binary (st : SemanticAnalyzer) (l : Expr) (op : BinOp)
    (r : Expr) :
    checkExpression st (.Binary l op r) = checkBinaryExpression st l op r :=
  (checkExpression.eq_def st (.Binary l op r)).trans rfl

/-- `SemanticAnalyzer::check_assignment` as a named function; its body
is the `Assign` arm of `checkExpression` (theorem
`checkExpression_assign`).  The target must already be declared; the
result type is the assigned VALUE's type (source comment: "assignment
expression's type is the value's type (common convention)"). -/
def checkAssignment (st : SemanticAnalyzer) (name : String) (value : Expr) :
    SemanticAnalyzer × Ty :=
  match lookupVariable st name with
  | none => (addError st (.UndeclaredVariable name), .Unknown)
  | some varType =>
    let rv := checkExpression st value
    let valueType := rv.2
    let st :=
      if valueType != .Unknown && varType != valueType then
        addError rv.1 (.TypeMismatch varType valueType
          s!"cannot assign value of type {tyDebug valueType} to variable '{name}' of type {tyDebug varType}")
      else rv.1
    (st, valueType)

theorem checkExpression_assign (st : SemanticAnalyzer) (name : String) (value : Expr) :
    checkExpression st (.Assign name value) = checkAssignment st name value :=
  (checkExpression.eq_def st (.Assign name value)).trans rfl

/-- `self.scopes.last_mut().expect("at least one scope").insert(name, t)`:
insert a binding into the innermost scope (the `expect` cannot fire:
the analyzer always keeps at least one scope; on an empty stack this
returns the state unchanged). -/
def insertCurrent (st : SemanticAnalyzer) (name : String) (t : Ty) :
    SemanticAnalyzer :=
  match st.scopes with
  | [] => st
  | cur :: rest => { st with scopes := scInsert cur name t :: rest }

/-- `SemanticAnalyzer::check_var_declaration`: redeclaration check in
the current (innermost) scope, initializer type check against the
declared type `Int`, then binding of the name (even on mismatch). -/
def checkVarDeclaration (st : SemanticAnalyzer) (name : String) (value : Expr) :
    SemanticAnalyzer :=
  match st.scopes with
  | [] => st
  | currentScope :: _ =>
    if scContains currentScope name then addError st (.Redeclaration name)
    else
      let rv := checkExpression st value
      let valueType := rv.2
      let declaredType := Ty.Int
      let st :=
        if valueType != .Unknown && valueType != declaredType then
          addError rv.1 (.TypeMismatch declaredType valueType
            s!"initializer for '{name}' must be {tyDebug declaredType}")
        else rv.1
      insertCurrent st name declaredType

mutual

/-- `SemanticAnalyzer::check_statement` (the body of
`check_if_statement` is inlined into the `If` arm so the mutual
recursion is structural; `checkIfStatement` below restates it as the
named source function). -/
def checkStatement (st : SemanticAnalyzer) : Stmt → SemanticAnalyzer
  | .VarDeclaration name value => checkVarDeclaration st name value
  | .Print expr => (checkExpression st expr).1
  | .If condition thenBlock elseBlock =>
    let rc := checkExpression st condition
    let condType := rc.2
    let st :=
      if condType != .Bool && condType != .Unknown then
        addError rc.1 (.TypeMismatch .Bool condType "if condition must be boolean")
      else rc.1
    let st := exitScope (checkStatements (enterScope st) thenBlock)
    match elseBlock with
    | some elseStmts => exitScope (checkStatements (enterScope st) elseStmts)
    | none => st

/-- The `for stmt in statements` loops of `semantic.rs`. -/
def checkStatements (st : SemanticAnalyzer) : List Stmt → SemanticAnalyzer
  | [] => st
  | s :: rest => checkStatements (checkStatement st s) rest

end

/-- `SemanticAnalyzer::check_if_statement` as a named function; its body
is the `If` arm of `checkStatement` (theorem `checkStatement_if`):
condition must type to `Bool` (or `Unknown`), then each branch is
checked inside a freshly entered scope that is discarded afterwards. -/
def checkIfStatement (st : SemanticAnalyzer) (condition : Expr)
    (thenBlock : List Stmt) (elseBlock : Option (List Stmt)) : SemanticAnalyzer :=
  let rc := checkExpression st condition
  let condType := rc.2
  let st :=
    if condType != .Bool && condType != .Unknown then
      addError rc.1 (.TypeMismatch .Bool condType "if condition must be boolean")
    else rc.1
  let st := exitScope (checkStatements (enterScope st) thenBlock)
  match elseBlock with
  | some elseStmts => exitScope (checkStatements (enterScope st) elseStmts)
  | none => st

theorem checkStatement_if (st : SemanticAnalyzer) (c : Expr) (t : List Stmt)
    (e : Option (List Stmt)) :
    checkStatement st (.If c t e) = checkIfStatement st c t e :=
  (checkStatement.eq_def st (.If c t e)).trans rfl

/-- `SemanticAnalyzer::analyze`: check every statement (never aborting),
then return `Ok(())` exactly when no diagnostic was recorded, else
`Err` carrying the whole diagnostic list. -/
def analyze (st : SemanticAnalyzer) (statements : List Stmt) :
    Except (List SemanticError) Unit :=
  let st := checkStatements st statements
  if st.errors.isEmpty then .ok () else .error st.errors

/-- The pipeline's semantic stage: `SemanticAnalyzer::new().analyze(ast)`
exactly as `main.rs` runs it. -/
def analyzeProgram (statements : List Stmt) : Except (List SemanticError) Unit :=
  analyze SemanticAnalyzer.new statements

end Semantic

namespace Codegen

open Ast

/-- The `Codegen` struct from `codegen.rs`: interned data-section
strings, variable stack offsets, the next free 8-byte slot, the emitted
instruction lines, the label counter, and the scratch-register pool
(`Vec<&str>`, kept in source order; `Vec::pop` takes the LAST element). -/
structure CodegenState where
  dataStrings : List (String × String)
  varOffsets : List (String × Int)
  nextVarOffset : Int
  instrs : List String
  labelCounter : Nat
  tempRegs : List String
  deriving Repr

/-- `Codegen::new`: empty state with the seven scratch registers
`x9`–`x15`. -/
def CodegenState.new : CodegenState :=
  ⟨[], [], 0, [], 0, ["x9", "x10", "x11", "x12", "x13", "x14", "x15"]⟩

/-- `Codegen::emit`. -/
def emit (st : CodegenState) (line : String) : CodegenState :=
  { st with instrs := st.instrs ++ [line] }

/-- `Codegen::fresh_label`. -/
def freshLabel (st : CodegenState) (base : String) : String × CodegenState :=
  (s!"{base}_{st.labelCounter}", { st with labelCounter := st.labelCounter + 1 })

/-- `Codegen::intern_string`: append to the data section under a fresh
`.LC<n>` label. -/
def internString (st : CodegenState) (s : String) : String × CodegenState :=
  let label := s!".LC{st.dataStrings.length}"
  (label, { st with dataStrings := st.dataStrings ++ [(label, s)] })

/-- `Codegen::allocate_var`: the existing offset, or the next free
8-byte slot. -/
def allocateVar (st : CodegenState) (name : String) : Int × CodegenState :=
  match (st.varOffsets.find? (fun p => p.1 == name)).map (fun p => p.2) with
  | some off => (off, st)
  | none =>
    (st.nextVarOffset,
     { st with varOffsets := st.varOffsets ++ [(name, st.nextVarOffset)],
               nextVarOffset := st.nextVarOffset + 8 })

/-- `Codegen::lookup_var`. -/
def lookupVar (st : CodegenState) (name : String) : Option Int :=
  (st.varOffsets.find? (fun p => p.1 == name)).map (fun p => p.2)

/-- `Codegen::alloc_tmp`: `Vec::pop` on the register pool (`none` when
the pool is empty — the caller's `.expect` is the panic). -/
def allocTmp (st : CodegenState) : Option (String × CodegenState) :=
  match st.tempRegs.getLast? with
  | some r => some (r, { st with tempRegs := st.tempRegs.dropLast })
  | none => none

/-- `Codegen::free_tmp`: push the register back onto the pool. -/
def freeTmp (st : CodegenState) (r : String) : CodegenState :=
  { st with tempRegs := st.tempRegs ++ [r] }

/-- `Codegen::emit_prologue`. -/
def emitPrologue (st : CodegenState) : CodegenState :=
  let st := emit st "\tmain:"
  let st := emit st "\tstp x29, x30, [sp, #-16]!    // save fp and lr, push 16 bytes"
  let st := emit st "\tmov x29, sp                  // set frame pointer"
  emit st "\tsub sp, sp, #512            // reserve 512 bytes for locals (simple stack frame)"

/-- `Codegen::emit_epilogue`. -/
def emitEpilogue (st : CodegenState) : CodegenState :=
  let st := emit st "\tadd sp, sp, #512            // deallocate frame"
  let st := emit st "\tldp x29, x30, [sp], #16     // restore fp and lr"
  let st := emit st "\tmov x0, #0                  // return 0"
  emit st "\tret"

/-- The panic message of `alloc_tmp().expect(...)` in `codegen.rs`. -/
def outOfRegs : String := "out of temporary registers"

/-- `Codegen::gen_expr`: evaluate an expression into a freshly allocated
scratch register, returning the register name; pool exhaustion is the
`expect` panic, modelled as `Except.error`.  (`codegen.rs` also has a
`BooleanLiteral` arm; that variant is absent from this AST, see
`Ast.Expr`.) -/
def genExpr (st : CodegenState) : Expr → Except String (String × CodegenState)
  | .IntegerLiteral n =>
    match allocTmp st with
    | none => .error outOfRegs
    | some (reg, st) =>
      .ok (reg, emit st s!"\tmov {reg}, #{n}        // literal {n}")
  | .StringLiteral s =>
    let r := internString st s
    match allocTmp r.2 with
    | none => .error outOfRegs
    | some (reg, st) =>
      .ok (reg, emit st s!"\tadr {reg}, {r.1}         // address of string literal")
  | .Identifier name =>
    match allocTmp st with
    | none => .error outOfRegs
    | some (reg, st) =>
      match lookupVar st name with
      | some off =>
        .ok (reg, emit st s!"\tldr {reg}, [sp, #{off}]    // load variable '{name}'")
      | none =>
        let st := emit st s!"\t// WARNING: variable '{name}' not found; using 0"
        .ok (reg, emit st s!"\tmov {reg}, #0")
  | .Assign name value =>
    match genExpr st value with
    | .error e => .error e
    | .ok (valReg, st) =>
      let r := allocateVar st name
      .ok (valReg, emit r.2 s!"\tstr {valReg}, [sp, #{r.1}]    // assign to '{name}'")
  | .Binary left op right =>
    match genExpr st left with
    | .error e => .error e
    | .ok (rLeft, st) =>
      match genExpr st right with
      | .error e => .error e
      | .ok (rRight, st) =>
        match op with
        | .Add =>
          let st := emit st s!"\tadd {rLeft}, {rLeft}, {rRight}    // {rLeft} + {rRight}"
          .ok (rLeft, freeTmp st rRight)
        | .Sub =>
          let st := emit st s!"\tsub {rLeft}, {rLeft}, {rRight}    // {rLeft} - {rRight}"
          .ok (rLeft, freeTmp st rRight)
        | .GreaterThan =>
          let st := emit st s!"\tcmp {rLeft}, {rRight}          // compare left and right"
          let st := emit st
            s!"\tcset {rLeft}, gt         // set {rLeft} = (left > right) ? 1 : 0"
          .ok (rLeft, freeTmp st rRight)
        | .LessThan =>
          let st := emit st s!"\tcmp {rLeft}, {rRight}          // compare left and right"
          let st := emit st
            s!"\tcset {rLeft}, lt         // set {rLeft} = (left < right) ? 1 : 0"
          .ok (rLeft, freeTmp st rRight)

/-- The body of `Codegen::gen_stmt`'s `Print` arm (factored into its
own definition — it is not recursive, and keeping it separate lets the
mutual `genStmt`/`genStmts` definition generate its equations): a
string literal prints via the string format call, everything else is
evaluated into a register and printed via the integer format call. -/
def genPrint (st : CodegenState) (expr : Expr) : Except String CodegenState :=
  match expr with
  | .StringLiteral s =>
    let r := internString st s
    let st := emit r.2 "\tadr x0, fmt_str         // load address of format string \"%s\\n\""
    let st := emit st s!"\tadr x1, {r.1}             // address of the string literal"
    .ok (emit st "\tbl printf                 // call printf(fmt_str, string)")
  | _ =>
    match genExpr st expr with
    | .error e => .error e
    | .ok (reg, st) =>
      let st := emit st "\tadr x0, fmt_int         // load address of \"%d\\n\" format"
      let st := emit st s!"\tmov x1, {reg}              // move value to x1 (printf 2nd arg)"
      let st := emit st "\tbl printf                 // call printf(fmt_int, value)"
      .ok (freeTmp st reg)

mutual

/-- `Codegen::gen_stmt`.  The source's `if let Some(else_stmts)` test
inside the `If` arm is modelled by two top-level `If` patterns, one per
`Option` case; the common prefix is duplicated verbatim. -/
def genStmt (st : CodegenState) : Stmt → Except String CodegenState
  | .VarDeclaration name value =>
    let ro := allocateVar st name
    match genExpr ro.2 value with
    | .error e => .error e
    | .ok (reg, st) =>
      let st := emit st s!"\tstr {reg}, [sp, #{ro.1}]    // store '{name}' into local slot"
      .ok (freeTmp st reg)
  | .Print expr => genPrint st expr
  | .If condition thenBlock (some elseStmts) =>
    match genExpr st condition with
    | .error e => .error e
    | .ok (condReg, st) =>
      let rElse := freshLabel st "else"
      let rEnd := freshLabel rElse.2 "end_if"
      let st := rEnd.2
      let st := emit st s!"\tcmp {condReg}, #0               // compare condition with 0"
      let st := emit st s!"\tbeq {rElse.1}                 // if equal (false) branch to else"
      match genStmts st thenBlock with
      | .error e => .error e
      | .ok st =>
        let st := emit st s!"\tb {rEnd.1}                    // jump to end_if after then"
        let st := emit st s!"\t{rElse.1}:                      // else label"
        match genStmts st elseStmts with
        | .error e => .error e
        | .ok st =>
          let st := emit st s!"\t{rEnd.1}:                      // end_if label"
          .ok (freeTmp st condReg)
  | .If condition thenBlock none =>
    match genExpr st condition with
    | .error e => .error e
    | .ok (condReg, st) =>
      let rElse := freshLabel st "else"
      let rEnd := freshLabel rElse.2 "end_if"
      let st := rEnd.2
      let st := emit st s!"\tcmp {condReg}, #0               // compare condition with 0"
      let st := emit st s!"\tbeq {rElse.1}                 // if equal (false) branch to else"
      match genStmts st thenBlock with
      | .error e => .error e
      | .ok st =>
        let st := emit st s!"\tb {rEnd.1}                    // jump to end_if after then"
        let st := emit st s!"\t{rElse.1}:                      // else label"
        let st := emit st s!"\t{rEnd.1}:                      // end_if label"
        .ok (freeTmp st condReg)

/-- The `for s in stmts` loops of `codegen.rs`. -/
def genStmts (st : CodegenState) : List Stmt → Except String CodegenState
  | [] => .ok st
  | s :: rest =>
    match genStmt st s with
    | .error e => .error e
    | .ok st => genStmts st rest

end

/-- `Codegen::generate`: prologue, statements, epilogue, then assemble
the final text (data section with the two printf format strings and the
interned literals, then the text section with the instructions). -/
def generate (stmts : List Stmt) : Except String String :=
  let st := emitPrologue CodegenState.new
  match genStmts st stmts with
  | .error e => .error e
  | .ok st =>
    let st := emitEpilogue st
    let dataSection :=
      ["fmt_int: .asciz \"%d\\n\"", "fmt_str: .asciz \"%s\\n\""] ++
        st.dataStrings.map (fun p => s!"{p.1}: .asciz {p.2}")
    let out := "\t.data\n"
    let out := out ++ String.join (dataSection.map (fun line => line ++ "\n"))
    let out := out ++ "\n\t.text\n"
    let out := out ++ "\t.global main\n"
    .ok (out ++ String.join (st.instrs.map (fun instr => instr ++ "\n")))

/-- Scratch registers simultaneously live while `gen_expr` evaluates an
expression: every leaf needs one register for its value; a binary node
evaluates its left operand first, HOLDS that register, and then
evaluates the right operand (so the right side needs one extra); an
assignment needs whatever its right-hand side needs.  This is exactly
the maximum depth `alloc_tmp` reaches minus the frees already returned:
`gen_expr` succeeds iff this many registers are free (theorem
`genExpr_spec`). -/
def needExpr : Expr → Nat
  | .IntegerLiteral _ => 1
  | .StringLiteral _ => 1
  | .Identifier _ => 1
  | .Assign _ value => needExpr value
  | .Binary left _ right => max (needExpr left) (needExpr right + 1)

/-- Scratch registers a print statement needs at once: none for a
string literal, the expression's need otherwise. -/
def needPrint : Expr → Nat
  | .StringLiteral _ => 0
  | e => needExpr e

mutual

/-- Scratch registers a statement needs at once: a print of a string
literal touches none; other prints and declarations need their
expression's registers; an `if` holds the condition register while
generating both branches. -/
def needStmt : Stmt → Nat
  | .VarDeclaration _ value => needExpr value
  | .Print e => needPrint e
  | .If condition thenBlock elseBlock =>
    max (needExpr condition)
      (1 + max (needStmts thenBlock)
        (match elseBlock with
         | some es => needStmts es
         | none => 0))

/-- Scratch registers a statement list needs at once (the pool is fully
restored between statements, so it is the maximum, not the sum). -/
def needStmts : List Stmt → Nat
  | [] => 0
  | s :: rest => max (needStmt s) (needStmts rest)

end

end Codegen

/-- The semantic-and-codegen tail of `main` in `main.rs`, applied to the
parsed AST: the semantic result is computed (and its errors would be
printed), but — source comment "IMPORTANT: do NOT return — keep
benchmarking" — code generation runs unconditionally afterwards and its
output is written to `out.s`.  The pair is (semantic result, generated
assembly). -/
def mainPipeline (ast : List Ast.Stmt) :
    Except (List Semantic.SemanticError) Unit × Except String String :=
  (Semantic.analyzeProgram ast, Codegen.generate ast)

namespace Parsing

/-- Modelled from the spec: `crate::parsing::ast::Expr` — the parser's
AST (also missing from the snapshot).  The spec lists integer, string
and boolean literals, identifier, assignment, binary operation and the
zero-argument nondeterministic boolean (`Maybe`, built by `parser.rs`).
`arm64.rs`'s exhaustive `gen_expr` match covers exactly the six
variants below and has no `Maybe` arm (a snapshot inconsistency between
iterations); no claim touches `Maybe`, so it is omitted here. -/
inductive Expr
  | IntegerLiteral (n : Int)
  | StringLiteral (s : String)
  | BooleanLiteral (b : Bool)
  | Identifier (name : String)
  | Assign (name : String) (value : Expr)
  | Binary (left : Expr) (op : BinOp) (right : Expr)
  deriving Repr

/-- Modelled from the spec: `crate::parsing::ast::Stmt`.  `arm64.rs`'s
exhaustive `gen_stmt` match covers exactly these five variants (block,
declaration, print, if, expression statement); the guard statement
(`Paywall`, built by `parser.rs`) has no arm there and no claim touches
it, so it is omitted. -/
inductive Stmt
  | Block (stmts : List Stmt)
  | VarDeclaration (name : String) (value : Expr)
  | Print (e : Expr)
  | If (condition : Expr) (thenBlock : List Stmt) (elseBlock : Option (List Stmt))
  | ExprStmt (e : Expr)
  deriving Repr

end Parsing

namespace Arm64

open Parsing

/-- The `Codegen` struct from `codegen/arm64.rs` (same shape as the
`codegen.rs` one; `vars`/`next_offset`/`label_id`/`temps` names follow
the source). -/
structure CodegenState where
  dataStrings : List (String × String)
  vars : List (String × Int)
  nextOffset : Int
  instrs : List String
  labelId : Nat
  temps : List String
  deriving Repr

/-- `Codegen::new` of `arm64.rs`. -/
def CodegenState.new : CodegenState :=
  ⟨[], [], 0, [], 0, ["x9", "x10", "x11", "x12", "x13", "x14", "x15"]⟩

/-- `Codegen::emit` of `arm64.rs`. -/
def emit (st : CodegenState) (line : String) : CodegenState :=
  { st with instrs := st.instrs ++ [line] }

/-- `Codegen::label` of `arm64.rs`. -/
def label (st : CodegenState) (base : String) : String × CodegenState :=
  (s!"{base}_{st.labelId}", { st with labelId := st.labelId + 1 })

/-- `Codegen::intern` of `arm64.rs`. -/
def intern (st : CodegenState) (s : String) : String × CodegenState :=
  let lbl := s!".LC{st.dataStrings.length}"
  (lbl, { st with dataStrings := st.dataStrings ++ [(lbl, s)] })

/-- `Codegen::alloc_var` of `arm64.rs` (`entry(..).or_insert_with`). -/
def allocVar (st : CodegenState) (name : String) : Int × CodegenState :=
  match (st.vars.find? (fun p => p.1 == name)).map (fun p => p.2) with
  | some off => (off, st)
  | none =>
    (st.nextOffset,
     { st with vars := st.vars ++ [(name, st.nextOffset)],
               nextOffset := st.nextOffset + 8 })

/-- `Codegen::alloc_tmp` of `arm64.rs`: `Vec::pop` plus
`.expect("out of registers")`; `none` is the panic. -/
def allocTmp (st : CodegenState) : Option (String × CodegenState) :=
  match st.temps.getLast? with
  | some r => some (r, { st with temps := st.temps.dropLast })
  | none => none

/-- `Codegen::free_tmp` of `arm64.rs`. -/
def freeTmp (st : CodegenState) (r : String) : CodegenState :=
  { st with temps := st.temps ++ [r] }

/-- `Codegen::emit_prologue` of `arm64.rs`. -/
def emitPrologue (st : CodegenState) : CodegenState :=
  let st := emit st "main:"
  let st := emit st "\tstp x29, x30, [sp, #-16]!"
  let st := emit st "\tmov x29, sp"
  emit st "\tsub sp, sp, #512"

/-- `Codegen::emit_epilogue` of `arm64.rs`. -/
def emitEpilogue (st : CodegenState) : CodegenState :=
  let st := emit st "\tadd sp, sp, #512"
  let st := emit st "\tldp x29, x30, [sp], #16"
  let st := emit st "\tmov x0, #0"
  emit st "\tret"

/-- The panic message of `alloc_tmp` in `arm64.rs`. -/
def outOfRegsA : String := "out of registers"

/-- `Codegen::gen_expr` of `arm64.rs`.  An identifier whose name has no
allocated slot silently loads from offset `0` (`unwrap_or(0)`). -/
def genExpr (st : CodegenState) : Expr → Except String (String × CodegenState)
  | .IntegerLiteral n =>
    match allocTmp st with
    | none => .error outOfRegsA
    | some (r, st) => .ok (r, emit st s!"\tmov {r}, #{n}")
  | .StringLiteral s =>
    let ri := intern st s
    match allocTmp ri.2 with
    | none => .error outOfRegsA
    | some (r, st) =>
      let st := emit st s!"\tadrp {r}, {ri.1}"
      .ok (r, emit st s!"\tadd  {r}, {r}, :lo12:{ri.1}")
  | .BooleanLiteral b =>
    match allocTmp st with
    | none => .error outOfRegsA
    | some (r, st) =>
      let v : Nat := if b then 1 else 0
      .ok (r, emit st s!"\tmov {r}, #{v}")
  | .Identifier name =>
    match allocTmp st with
    | none => .error outOfRegsA
    | some (r, st) =>
      let off := ((st.vars.find? (fun p => p.1 == name)).map (fun p => p.2)).getD 0
      .ok (r, emit st s!"\tldr {r}, [sp, #{off}]")
  | .Assign name value =>
    match genExpr st value with
    | .error e => .error e
    | .ok (r, st) =>
      let ro := allocVar st name
      .ok (r, emit ro.2 s!"\tstr {r}, [sp, #{ro.1}]")
  | .Binary left op right =>
    match genExpr st left with
    | .error e => .error e
    | .ok (l, st) =>
      match genExpr st right with
      | .error e => .error e
      | .ok (r, st) =>
        let st :=
          match op with
          | .Add => emit st s!"\tadd {l}, {l}, {r}"
          | .Sub => emit st s!"\tsub {l}, {l}, {r}"
          | .GreaterThan => emit (emit st s!"\tcmp {l}, {r}") s!"\tcset {l}, gt"
          | .LessThan => emit (emit st s!"\tcmp {l}, {r}") s!"\tcset {l}, lt"
        .ok (l, freeTmp st r)

/-- The body of `arm64.rs` `gen_stmt`'s `Print` arm (factored into its
own non-recursive definition, as for the other backend): a string
literal prints via the string format call, everything else via the
integer format call. -/
def genPrint (st : CodegenState) (expr : Expr) : Except String CodegenState :=
  match expr with
  | .StringLiteral s =>
    let ri := intern st s
    let st := emit ri.2 "\tadrp x0, fmt_str"
    let st := emit st "\tadd  x0, x0, :lo12:fmt_str"
    let st := emit st s!"\tadrp x1, {ri.1}"
    let st := emit st s!"\tadd  x1, x1, :lo12:{ri.1}"
    .ok (emit st "\tbl printf")
  | _ =>
    match genExpr st expr with
    | .error e => .error e
    | .ok (r, st) =>
      let st := emit st "\tadrp x0, fmt_int"
      let st := emit st "\tadd  x0, x0, :lo12:fmt_int"
      let st := emit st s!"\tmov x1, {r}"
      let st := emit st "\tbl printf"
      .ok (freeTmp st r)

mutual

/-- `Codegen::gen_stmt` of `arm64.rs`.  As for the other backend, the
source's `if let Some(stmts)` test inside the `If` arm is modelled by
two top-level `If` patterns, one per `Option` case. -/
def genStmt (st : CodegenState) : Stmt → Except String CodegenState
  | .Block stmts => genStmts st stmts
  | .VarDeclaration name value =>
    let ro := allocVar st name
    match genExpr ro.2 value with
    | .error e => .error e
    | .ok (r, st) =>
      let st := emit st s!"\tstr {r}, [sp, #{ro.1}]"
      .ok (freeTmp st r)
  | .Print expr => genPrint st expr
  | .If condition thenBlock (some stmts) =>
    match genExpr st condition with
    | .error e => .error e
    | .ok (r, st) =>
      let rElse := label st "else"
      let rEnd := label rElse.2 "endif"
      let st := rEnd.2
      let st := emit st s!"\tcmp {r}, #0"
      let st := emit st s!"\tbeq {rElse.1}"
      match genStmts st thenBlock with
      | .error e => .error e
      | .ok st =>
        let st := emit st s!"\tb {rEnd.1}"
        let st := emit st s!"{rElse.1}:"
        match genStmts st stmts with
        | .error e => .error e
        | .ok st => .ok (freeTmp (emit st s!"{rEnd.1}:") r)
  | .If condition thenBlock none =>
    match genExpr st condition with
    | .error e => .error e
    | .ok (r, st) =>
      let rElse := label st "else"
      let rEnd := label rElse.2 "endif"
      let st := rEnd.2
      let st := emit st s!"\tcmp {r}, #0"
      let st := emit st s!"\tbeq {rElse.1}"
      match genStmts st thenBlock with
      | .error e => .error e
      | .ok st =>
        let st := emit st s!"\tb {rEnd.1}"
        let st := emit st s!"{rElse.1}:"
        .ok (freeTmp (emit st s!"{rEnd.1}:") r)
  | .ExprStmt expr =>
    match genExpr st expr with
    | .error e => .error e
    | .ok (r, st) => .ok (freeTmp st r)

/-- The `for s in stmts` loops of `arm64.rs`. -/
def genStmts (st : CodegenState) : List Stmt → Except String CodegenState
  | [] => .ok st
  | s :: rest =>
    match genStmt st s with
    | .error e => .error e
    | .ok st => genStmts st rest

end

/-- `Codegen::generate` of `arm64.rs`.  This version quotes the interned
string texts in the data section. -/
def generate (stmts : List Stmt) : Except String String :=
  let st := emitPrologue CodegenState.new
  match genStmts st stmts with
  | .error e => .error e
  | .ok st =>
    let st := emitEpilogue st
    let out := "\t.data\n"
    let out := out ++ "fmt_int: .asciz \"%d\\n\"\n"
    let out := out ++ "fmt_str: .asciz \"%s\\n\"\n"
    let out := out ++
      String.join (st.dataStrings.map (fun p => s!"{p.1}: .asciz \"{p.2}\"\n"))
    let out := out ++ "\n\t.text\n"
    let out := out ++ "\t.global main\n"
    .ok (out ++ String.join (st.instrs.map (fun i => i ++ "\n")))

/-- Scratch registers simultaneously live while the `arm64.rs`
`gen_expr` evaluates an expression (same discipline as the other
backend: leaves take one, a binary holds the left register across the
right operand). -/
def needExpr : Expr → Nat
  | .IntegerLiteral _ => 1
  | .StringLiteral _ => 1
  | .BooleanLiteral _ => 1
  | .Identifier _ => 1
  | .Assign _ value => needExpr value
  | .Binary left _ right => max (needExpr left) (needExpr right + 1)

/-- Scratch registers a print statement needs at once in `arm64.rs`:
none for a string literal, the expression's need otherwise. -/
def needPrint : Expr → Nat
  | .StringLiteral _ => 0
  | e => needExpr e

mutual

/-- Scratch registers a statement needs at once in `arm64.rs`; the
extra `Block` and `ExprStmt` forms delegate to their contents. -/
def needStmt : Stmt → Nat
  | .Block stmts => needStmts stmts
  | .VarDeclaration _ value => needExpr value
  | .Print e => needPrint e
  | .If condition thenBlock elseBlock =>
    max (needExpr condition)
      (1 + max (needStmts thenBlock)
        (match elseBlock with
         | some es => needStmts es
         | none => 0))
  | .ExprStmt e => needExpr e

/-- Scratch registers a statement list needs at once in `arm64.rs`. -/
def needStmts : List Stmt → Nat
  | [] => 0
  | s :: rest => max (needStmt s) (needStmts rest)

end

end Arm64

namespace Lexing

/-- `Token` as constructed by `lex_program` in `lexing/lexer.rs`
(keywords and punctuation are unit variants there; the enum declared in
`lexing/token.rs` carries the lexeme strings instead — a snapshot
inconsistency between iterations; the payloads play no role in any
claim, so the constructors follow the lexer, which is the cited code). -/
inductive Token
  | Print
  | If
  | Else
  | Int
  | IntegerLiteral (value : Int)
  | StringLiteral (value : String)
  | Identifier (name : String)
  | Plus
  | Minus
  | Assign
  | GreaterThan
  | LessThan
  | SemiColon
  | LeftParen
  | RightParen
  | LeftBrace
  | RightBrace
  deriving DecidableEq, Repr

/-- A candidate match as collected by `lex_program`:
`(token_type, start, end)` byte positions (all inputs here are ASCII, so
byte and character positions coincide). -/
abbrev Cand := String × Nat × Nat

/-- Whether the first list is a prefix of the second (a regex literal
matching at a position). -/
def literalMatch : List Char → List Char → Bool
  | [], _ => true
  | _ :: _, [] => false
  | p :: ps, c :: cs => p == c && literalMatch ps cs

/-- Length of the maximal run of characters satisfying `p` (the greedy
semantics of `x+` / `x*` character-class repetition). -/
def countWhile (p : Char → Bool) : List Char → Nat
  | [] => 0
  | c :: cs => if p c then countWhile p cs + 1 else 0

/-- The regex class `\s` (ASCII part). -/
def isWhitespaceChar (c : Char) : Bool :=
  c == ' ' || c == '\t' || c == '\n' || c == '\r' || c == '\x0b' || c == '\x0c'

/-- The class `[a-zA-Z_]`. -/
def isIdentStart (c : Char) : Bool := c.isAlpha || c == '_'

/-- The class `[a-zA-Z0-9_]`. -/
def isIdentChar (c : Char) : Bool := c.isAlphanum || c == '_'

/-- Literal-pattern matching at a position: the pattern's length when it
is a prefix of the remaining input. -/
def litPat (pat : String) (s : List Char) : Option Nat :=
  if literalMatch pat.toList s then some pat.length else none

/-- Index of the LAST occurrence of `ch` (greedy `.*` backtracking to
its final `\"` in the string-literal pattern). -/
def lastIdxOf (ch : Char) : List Char → Option Nat
  | [] => none
  | c :: cs =>
    match lastIdxOf ch cs with
    | some j => some (j + 1)
    | none => if c == ch then some 0 else none

/-- The characters before the first newline (regex `.` does not match
`\n`). -/
def takeUntilNewline : List Char → List Char
  | [] => []
  | c :: cs => if c == '\n' then [] else c :: takeUntilNewline cs

/-- `Token::get_token_regex` (`lexing/token.rs`), as a matcher: the
length of the (greedy, leftmost) match of the named token type's regex
at the given suffix of the input, if any.  The patterns, in source
order: keywords `print`/`if`/`else` literal, `int\s+`, `\d+`,
`\".*\"`, identifier `[a-zA-Z_][a-zA-Z0-9_]*`, and the one-character
operators and punctuation. -/
def regexMatchAt (tokenType : String) (s : List Char) : Option Nat :=
  match tokenType with
  | "Print" => litPat "print" s
  | "If" => litPat "if" s
  | "Else" => litPat "else" s
  | "Int" =>
    if literalMatch "int".toList s then
      let w := countWhile isWhitespaceChar (s.drop 3)
      if 1 ≤ w then some (3 + w) else none
    else none
  | "IntegerLiteral" =>
    let d := countWhile Char.isDigit s
    if 1 ≤ d then some d else none
  | "StringLiteral" =>
    match s with
    | '"' :: rest =>
      match lastIdxOf '"' (takeUntilNewline rest) with
      | some j => some (j + 2)
      | none => none
    | _ => none
  | "Identifier" =>
    match s with
    | c :: cs => if isIdentStart c then some (1 + countWhile isIdentChar cs) else none
    | [] => none
  | "Plus" => litPat "+" s
  | "Minus" => litPat "-" s
  | "Assign" => litPat "=" s
  | "GreaterThan" => litPat ">" s
  | "LessThan" => litPat "<" s
  | "SemiColon" => litPat ";" s
  | "LeftParen" => litPat "(" s
  | "RightParen" => litPat ")" s
  | "LeftBrace" => litPat "\x7b" s
  | "RightBrace" => litPat "\x7d" s
  | _ => none

/-- The scan loop of `Regex::find_iter`: leftmost matches, each greedy,
continuing after the end of an accepted match (non-overlapping).  All
the patterns above match at least one character, so each step advances;
`fuel` (started at `length + 1`) only makes that termination
structural. -/
def findIterGo (tokenType : String) (s : List Char) (i : Nat) :
    Nat → List (Nat × Nat)
  | 0 => []
  | fuel + 1 =>
    if i < s.length then
      match regexMatchAt tokenType (s.drop i) with
      | some l => (i, i + l) :: findIterGo tokenType s (i + l) fuel
      | none => findIterGo tokenType s (i + 1) fuel
    else []

/-- `regex.find_iter(program)` for one token type. -/
def findIter (tokenType : String) (s : List Char) : List (Nat × Nat) :=
  findIterGo tokenType s 0 (s.length + 1)

/-- The token-type array at the top of `lex_program`, in its priority
order (identifiers kept last). -/
def tokenTypes : List String :=
  ["Print", "If", "Else", "Int",
   "IntegerLiteral", "StringLiteral",
   "Plus", "Minus", "Assign", "GreaterThan", "LessThan",
   "LeftParen", "RightParen", "LeftBrace", "RightBrace", "SemiColon",
   "Identifier"]

/-- The candidate-collection loop of `lex_program`: all matches of all
token types, grouped by token type in array order. -/
def lexCandidates (program : List Char) : List Cand :=
  tokenTypes.flatMap (fun tt => (findIter tt program).map (fun m => (tt, m.1, m.2)))

/-- The comparator of `lex_program`'s `sort_by`: by start position
ascending, then by match length descending ("longest match first").
`candLe a b` says `a` may stay before `b`. -/
def candLe (a b : Cand) : Bool :=
  a.2.1 < b.2.1 || (a.2.1 == b.2.1 && (b.2.2 - b.2.1) ≤ (a.2.2 - a.2.1))

/-- Insert into an already-sorted list, after every element that may
stay before the new one (so equal keys keep their original order). -/
def insertCand (x : Cand) : List Cand → List Cand
  | [] => [x]
  | y :: ys => if candLe y x then y :: insertCand x ys else x :: y :: ys

/-- `matches.sort_by(...)`: a stable sort by `candLe` (Rust's `sort_by`
is stable; this left-to-right insertion sort is its stable
equivalent). -/
def sortCands (l : List Cand) : List Cand :=
  l.foldl (fun acc x => insertCand x acc) []

/-- The selection loop of `lex_program`: walk the sorted candidates,
skipping any whose start lies inside the span already consumed
(`start < last_end`), and advancing `last_end` past each accepted
match. -/
def selectMatches (lastEnd : Nat) : List Cand → List Cand
  | [] => []
  | c :: rest =>
    if c.2.1 < lastEnd then selectMatches lastEnd rest
    else c :: selectMatches c.2.2 rest

/-- `lexeme.parse::<i64>()` on a digit string. -/
def digitsToNat (acc : Nat) : List Char → Nat
  | [] => acc
  | c :: cs => digitsToNat (acc * 10 + (c.toNat - 48)) cs

/-- The token-construction `match` of `lex_program`: build the `Token`
for an accepted candidate from its lexeme `program[start..end]`
(string literals are stored without their surrounding quotes).  The
source's `unreachable!` arm for an unknown token type is modelled as
`none` (it cannot fire: every candidate's type comes from
`tokenTypes`). -/
def toToken (program : List Char) (c : Cand) : Option Token :=
  let lexeme := String.mk ((program.drop c.2.1).take (c.2.2 - c.2.1))
  match c.1 with
  | "Print" => some .Print
  | "If" => some .If
  | "Else" => some .Else
  | "Int" => some .Int
  | "IntegerLiteral" => some (.IntegerLiteral (digitsToNat 0 lexeme.toList))
  | "StringLiteral" =>
    some (.StringLiteral (String.mk (lexeme.toList.drop 1 |>.take (lexeme.length - 2))))
  | "Identifier" => some (.Identifier lexeme)
  | "Plus" => some .Plus
  | "Minus" => some .Minus
  | "Assign" => some .Assign
  | "GreaterThan" => some .GreaterThan
  | "LessThan" => some .LessThan
  | "SemiColon" => some .SemiColon
  | "LeftParen" => some .LeftParen
  | "RightParen" => some .RightParen
  | "LeftBrace" => some .LeftBrace
  | "RightBrace" => some .RightBrace
  | _ => none

/-- `lex_program` (`lexing/lexer.rs`): collect all candidates, sort by
(start ascending, length descending), select non-overlapping matches
left to right, and convert each accepted candidate to its token. -/
def lexProgram (program : String) : List Token :=
  let chars := program.toList
  (selectMatches 0 (sortCands (lexCandidates chars))).filterMap (toToken chars)

end Lexing

/-- Whether an `Except` computation succeeded. -/
def isOkExcept {ε α : Type} : Except ε α → Bool
  | .ok _ => true
  | .error _ => false

/-- The one-declaration program `int x = "69";` (the repeated block of
`main.rs`'s benchmark source, reduced to a single declaration): its
initializer is a `String`, so semantic analysis fails. -/
def benchDecl : List Ast.Stmt := [.VarDeclaration "x" (.StringLiteral "69")]

/-- C1 counterexample: a source program whose semantic analysis returns
a non-empty error list for which the pipeline nevertheless produces
assembly text — `main.rs` (comment: "IMPORTANT: do NOT return — keep
benchmarking") runs code generation unconditionally, so the claim "the
pipeline produces no assembly text" is false at this input. -/
theorem C1_counterexample :
    (mainPipeline benchDecl).1 =
      .error [.TypeMismatch .Int .String "initializer for 'x' must be Int"] ∧
    isOkExcept (mainPipeline benchDecl).2 = true :=
  ⟨rfl, rfl⟩

/-- C1 (amended): semantic failure does not prevent code generation —
`main` computes the semantic result and then runs `Codegen::generate`
on the AST unconditionally; in particular the failing program
`int x = "69";` gets a full (non-empty) assembly file despite its
`TypeMismatch` diagnostic. -/
theorem C1_theorem :
    (∀ ast : List Ast.Stmt, (mainPipeline ast).2 = Codegen.generate ast) ∧
    ((mainPipeline benchDecl).1 =
        .error [.TypeMismatch .Int .String "initializer for 'x' must be Int"] ∧
      ∃ asm, (mainPipeline benchDecl).2 = .ok asm ∧ asm ≠ "") :=
  ⟨fun _ => rfl, rfl, _, rfl, by decide⟩

/-- The spec's branch-pruning example
`if (3 > 1) { print(1); } else { print(2); }`. -/
def branchIfProgram : List Ast.Stmt :=
  [.If (.Binary (.IntegerLiteral 3) .GreaterThan (.IntegerLiteral 1))
    [.Print (.IntegerLiteral 1)] (some [.Print (.IntegerLiteral 2)])]

/-- C2 counterexample: the optimizer does NOT rewrite
`if (3 > 1) { print(1); } else { print(2); }` to `print(1);` — the
condition folds to the integer literal `1` (not a `Bool` constant), so
the branch-elimination arms never fire and the whole `if` (else branch
included) survives. -/
theorem C2_counterexample :
    Optimizer.optimize branchIfProgram ≠ [.Print (.IntegerLiteral 1)] := by
  have h : Optimizer.optimize branchIfProgram =
      [.If (.IntegerLiteral 1) [.Print (.IntegerLiteral 1)]
        (some [.Print (.IntegerLiteral 2)])] := rfl
  rw [h]
  simp

/-- C2 (amended): a comparison condition constant-folds to the INTEGER
literal `1` or `0`, never to a `Bool`-kind constant (this AST has no
boolean literal), so `optimize_if_statement`'s dead-branch arms never
match and the `if` statement is kept whole with the folded condition
and both branches: `if (3 > 1) { print(1); } else { print(2); }`
optimizes to `if (1) { print(1); } else { print(2); }`, not to
`print(1);`. -/
theorem C2_theorem :
    Optimizer.optimize branchIfProgram =
      [.If (.IntegerLiteral 1) [.Print (.IntegerLiteral 1)]
        (some [.Print (.IntegerLiteral 2)])] := rfl

/-- C3 counterexample: folding `3 > 1` yields the INTEGER literal `1`
(whose constant kind is `ConstValue.Int`, not the language's Bool
kind), refuting "produces a boolean constant result (a value of the
language's Bool kind, not an integer)". -/
theorem C3_counterexample :
    Optimizer.foldBinaryOperation (.Int 3) .GreaterThan (.Int 1) =
      some (.IntegerLiteral 1) ∧
    Optimizer.tryEvaluateToConst Optimizer.OptimizerState.new (.IntegerLiteral 1) =
      some (.Int 1) :=
  ⟨rfl, rfl⟩

/-- C3 (amended): folding `l > r` / `l < r` on integer constants
produces the integer constant `1` or `0` (an `IntegerLiteral` — the AST
has no boolean literal, the source comments "Result is boolean, but we
don't have boolean literals yet"), while a type-incompatible operand
combination (here `Int > String`) folds to `none` and the binary node
is left unchanged. -/
theorem C3_theorem :
    (∀ l r : Int,
      Optimizer.foldBinaryOperation (.Int l) .GreaterThan (.Int r) =
          some (.IntegerLiteral (if l > r then 1 else 0)) ∧
        Optimizer.foldBinaryOperation (.Int l) .LessThan (.Int r) =
          some (.IntegerLiteral (if l < r then 1 else 0))) ∧
    (∀ (st : Optimizer.OptimizerState) (n : Int) (s : String),
      Optimizer.optimizeExpression st
          (.Binary (.IntegerLiteral n) .GreaterThan (.StringLiteral s)) =
        .Binary (.IntegerLiteral n) .GreaterThan (.StringLiteral s)) := by
  refine ⟨fun l r => ⟨rfl, rfl⟩, fun st n s => ?_⟩
  simp [Optimizer.optimizeExpression, Optimizer.binaryRest,
    Optimizer.tryEvaluateToConst, Optimizer.foldBinaryOperation, Optimizer.afterFold]

/-- The failing input for C4: `int x = 5; print(x = 7); print(x);`. -/
def assignProgram : List Ast.Stmt :=
  [.VarDeclaration "x" (.IntegerLiteral 5),
   .Print (.Assign "x" (.IntegerLiteral 7)),
   .Print (.Identifier "x")]

/-- C4: `optimize_expression` takes `&self`, so processing the
assignment `x = 7` cannot invalidate the recorded constant `x ↦ 5`
(first conjunct: the `Assign` arm only rewrites the assigned value);
consequently the later reference to `x` IS still replaced by the stale
constant: `int x = 5; print(x = 7); print(x);` optimizes to
`int x = 5; print(x = 7); print(5);`, changing observable behavior
(the program now prints 5 where the original prints 7). -/
theorem C4_theorem :
    (∀ (st : Optimizer.OptimizerState) (name : String) (value : Ast.Expr),
      Optimizer.optimizeExpression st (.Assign name value) =
        .Assign name (Optimizer.optimizeExpression st value)) ∧
    Optimizer.optimize assignProgram =
      [.VarDeclaration "x" (.IntegerLiteral 5),
       .Print (.Assign "x" (.IntegerLiteral 7)),
       .Print (.IntegerLiteral 5)] :=
  ⟨fun st name value => (Optimizer.optimizeExpression.eq_def st (.Assign name value)).trans rfl,
   rfl⟩

/-- C8 counterexample: with `x : Int` declared, checking the assignment
`x = "hi"` gives the assignment expression the VALUE's type `String`,
not the target's declared type `Int` (the claim says the declared
type); the `TypeMismatch` itself is recorded as the claim describes. -/
theorem C8_counterexample :
    (Semantic.checkAssignment ⟨[[("x", .Int)]], []⟩ "x" (.StringLiteral "hi")).2 =
        Semantic.Ty.String ∧
    Semantic.Ty.String ≠ Semantic.Ty.Int ∧
    (Semantic.checkAssignment ⟨[[("x", .Int)]], []⟩ "x" (.StringLiteral "hi")).1.errors =
      [.TypeMismatch .Int .String
        "cannot assign value of type String to variable 'x' of type Int"] :=
  ⟨rfl, by decide, rfl⟩

/-- C8 (amended): for an assignment `name = value`, when `name` is
declared with type `t` the assignment expression's own type is the
assigned VALUE's type (first conjunct; source comment "assignment
expression's type is the value's type (common convention)"), a
`TypeMismatch t vt …` diagnostic is appended exactly when the value's
type is known (≠ `Unknown`) and differs from `t` (third conjunct); when
`name` is undeclared an `UndeclaredVariable` diagnostic is recorded and
the result type is `Unknown` (second conjunct). -/
theorem C8_theorem :
    (∀ (st : Semantic.SemanticAnalyzer) (name : String) (value : Ast.Expr)
      (t : Semantic.Ty), Semantic.lookupVariable st name = some t →
        (Semantic.checkAssignment st name value).2 =
          (Semantic.checkExpression st value).2) ∧
    (∀ (st : Semantic.SemanticAnalyzer) (name : String) (value : Ast.Expr),
      Semantic.lookupVariable st name = none →
        Semantic.checkAssignment st name value =
          (Semantic.addError st (.UndeclaredVariable name), .Unknown)) ∧
    (∀ (st : Semantic.SemanticAnalyzer) (name : String) (value : Ast.Expr)
      (t : Semantic.Ty), Semantic.lookupVariable st name = some t →
        (Semantic.checkExpression st value).2 ≠ .Unknown →
        (Semantic.checkExpression st value).2 ≠ t →
        (Semantic.checkAssignment st name value).1.errors =
          (Semantic.checkExpression st value).1.errors ++
            [.TypeMismatch t ((Semantic.checkExpression st value).2)
              (s!"cannot assign value of type {Semantic.tyDebug ((Semantic.checkExpression st value).2)} to variable '{name}' of type {Semantic.tyDebug t}")]) := by
  refine ⟨fun st name value t h => ?_, fun st name value h => ?_,
    fun st name value t h h1 h2 => ?_⟩
  · simp only [Semantic.checkAssignment, h]
  · simp only [Semantic.checkAssignment, h]
  · simp only [Semantic.checkAssignment, h]
    have hc : ((Semantic.checkExpression st value).2 != Semantic.Ty.Unknown &&
        t != (Semantic.checkExpression st value).2) = true := by
      simp only [bne_iff_ne, Bool.and_eq_true, ne_eq]
      exact ⟨h1, fun hh => h2 hh.symm⟩
    simp only [hc, if_true, Semantic.addError]

/-- Witness for C8's amended theorem: its three parts applied at
concrete inputs (a declared `x : Int` assigned the string `"hi"`, and
an assignment to the undeclared `y`), each hypothesis discharged by
computation. -/
theorem C8_witness :
    (Semantic.checkAssignment ⟨[[("x", .Int)]], []⟩ "x" (.StringLiteral "hi")).2 =
        (Semantic.checkExpression ⟨[[("x", .Int)]], []⟩ (.StringLiteral "hi")).2 ∧
    Semantic.checkAssignment Semantic.SemanticAnalyzer.new "y" (.IntegerLiteral 1) =
        (Semantic.addError Semantic.SemanticAnalyzer.new (.UndeclaredVariable "y"),
          .Unknown) ∧
    (Semantic.checkAssignment ⟨[[("x", .Int)]], []⟩ "x" (.StringLiteral "hi")).1.errors =
      (Semantic.checkExpression ⟨[[("x", .Int)]], []⟩ (.StringLiteral "hi")).1.errors ++
        [.TypeMismatch .Int .String
          "cannot assign value of type String to variable 'x' of type Int"] :=
  ⟨C8_theorem.1 ⟨[[("x", .Int)]], []⟩ "x" (.StringLiteral "hi") .Int rfl,
   C8_theorem.2.1 Semantic.SemanticAnalyzer.new "y" (.IntegerLiteral 1) rfl,
   C8_theorem.2.2 ⟨[[("x", .Int)]], []⟩ "x" (.StringLiteral "hi") .Int rfl
     (by decide) (by decide)⟩


namespace Semantic

theorem addError_scopes (st : SemanticAnalyzer) (e : SemanticError) :
    (addError st e).scopes = st.scopes := rfl

theorem addError_errors (st : SemanticAnalyzer) (e : SemanticError) :
    (addError st e).errors = st.errors ++ [e] := rfl

/-- `st` carries all the diagnostics of `base`, in order, possibly
followed by newer ones.  `semantic.rs` only ever appends diagnostics
(`add_error` pushes), so every analyzer step preserves this. -/
def ErrsExt (base : List SemanticError) (st : SemanticAnalyzer) : Prop :=
  ∃ es, st.errors = base ++ es

theorem errsExt_refl (st : SemanticAnalyzer) : ErrsExt st.errors st :=
  ⟨[], by simp⟩

theorem errsExt_addError {base : List SemanticError} {st : SemanticAnalyzer}
    (h : ErrsExt base st) (e : SemanticError) : ErrsExt base (addError st e) := by
  obtain ⟨es, hes⟩ := h
  exact ⟨es ++ [e], by simp [addError, hes]⟩

theorem errsExt_ite {base : List SemanticError} {c : Prop} [Decidable c]
    {a b : SemanticAnalyzer} (ha : ErrsExt base a) (hb : ErrsExt base b) :
    ErrsExt base (if c then a else b) := by
  split
  · exact ha
  · exact hb

theorem errsExt_comp {base : List SemanticError} {st st2 : SemanticAnalyzer}
    (h1 : ErrsExt base st) (h2 : ErrsExt st.errors st2) : ErrsExt base st2 := by
  obtain ⟨e1, he1⟩ := h1
  obtain ⟨e2, he2⟩ := h2
  exact ⟨e1 ++ e2, by simp [he2, he1]⟩

theorem errsExt_enterScope {base : List SemanticError} {st : SemanticAnalyzer}
    (h : ErrsExt base st) : ErrsExt base (enterScope st) := h

theorem errsExt_exitScope {base : List SemanticError} {st : SemanticAnalyzer}
    (h : ErrsExt base st) : ErrsExt base (exitScope st) := by
  obtain ⟨es, hes⟩ := h
  refine ⟨es, ?_⟩
  unfold exitScope
  split <;> simpa using hes

/-- `check_expression` never touches the scope stack (it only reads it
and may append diagnostics). -/
theorem checkExpression_scopes (e : Ast.Expr) (st : SemanticAnalyzer) :
    (checkExpression st e).1.scopes = st.scopes := by
  induction e generalizing st with
  | IntegerLiteral n => rfl
  | StringLiteral s => rfl
  | Identifier name =>
    simp only [checkExpression, checkIdentifier]
    cases h : lookupVariable st name <;> simp [h, addError]
  | Assign name value ih =>
    simp only [checkExpression]
    cases h : lookupVariable st name with
    | none => simp [h, addError]
    | some t =>
      simp only [h]
      split <;> simp [addError, ih st]
  | Binary l op r ihl ihr =>
    simp only [checkExpression]
    cases op <;> dsimp only <;> split_ifs <;>
      simp [addError, ihr ((checkExpression st l).1), ihl st]

/-- `check_expression` only ever appends to the diagnostic list. -/
theorem checkExpression_errors (e : Ast.Expr) (st : SemanticAnalyzer) :
    ErrsExt st.errors (checkExpression st e).1 := by
  induction e generalizing st with
  | IntegerLiteral n => exact errsExt_refl st
  | StringLiteral s => exact errsExt_refl st
  | Identifier name =>
    simp only [checkExpression, checkIdentifier]
    cases h : lookupVariable st name with
    | none => exact errsExt_addError (errsExt_refl st) _
    | some t => exact errsExt_refl st
  | Assign name value ih =>
    simp only [checkExpression]
    cases h : lookupVariable st name with
    | none => exact errsExt_addError (errsExt_refl st) _
    | some t =>
      simp only [h]
      split
      · exact errsExt_addError (ih st) _
      · exact ih st
  | Binary l op r ihl ihr =>
    have hcomp : ErrsExt st.errors (checkExpression (checkExpression st l).1 r).1 :=
      errsExt_comp (ihl st) (ihr ((checkExpression st l).1))
    simp only [checkExpression]
    cases op <;> dsimp only <;> split_ifs <;>
      first
        | exact hcomp
        | exact errsExt_addError hcomp _

theorem insertCurrent_errors (st : SemanticAnalyzer) (name : String) (t : Ty) :
    (insertCurrent st name t).errors = st.errors := by
  unfold insertCurrent
  cases h : st.scopes <;> simp

theorem errsExt_insertCurrent {base : List SemanticError} {st : SemanticAnalyzer}
    (h : ErrsExt base st) (name : String) (t : Ty) :
    ErrsExt base (insertCurrent st name t) := by
  obtain ⟨es, hes⟩ := h
  exact ⟨es, by rw [insertCurrent_errors, hes]⟩

theorem checkVarDeclaration_errors (name : String) (value : Ast.Expr)
    (st : SemanticAnalyzer) :
    ErrsExt st.errors (checkVarDeclaration st name value) := by
  unfold checkVarDeclaration
  cases hs : st.scopes with
  | nil => exact errsExt_refl st
  | cons cur rest =>
    dsimp only
    split
    · exact errsExt_addError (errsExt_refl st) _
    · exact errsExt_insertCurrent
        (errsExt_ite (errsExt_addError (checkExpression_errors value st) _)
          (checkExpression_errors value st)) name Ty.Int

mutual

/-- `check_statement` only ever appends to the diagnostic list: it
never aborts on a diagnostic and never discards earlier ones. -/
theorem checkStatement_errors (s : Ast.Stmt) (st : SemanticAnalyzer) :
    ErrsExt st.errors (checkStatement st s) := by
  cases s with
  | VarDeclaration name value => exact checkVarDeclaration_errors name value st
  | Print e => exact checkExpression_errors e st
  | If c tb eb =>
    rw [checkStatement_if]
    unfold checkIfStatement
    dsimp only
    have hC : ErrsExt st.errors
        (if ((checkExpression st c).2 != Ty.Bool &&
            (checkExpression st c).2 != Ty.Unknown) = true then
          addError (checkExpression st c).1
            (.TypeMismatch .Bool (checkExpression st c).2 "if condition must be boolean")
        else (checkExpression st c).1) :=
      errsExt_ite (errsExt_addError (checkExpression_errors c st) _)
        (checkExpression_errors c st)
    have hThen : ErrsExt st.errors
        (exitScope (checkStatements (enterScope
          (if ((checkExpression st c).2 != Ty.Bool &&
              (checkExpression st c).2 != Ty.Unknown) = true then
            addError (checkExpression st c).1
              (.TypeMismatch .Bool (checkExpression st c).2 "if condition must be boolean")
          else (checkExpression st c).1)) tb)) :=
      errsExt_exitScope (errsExt_comp (errsExt_enterScope hC)
        (checkStatements_errors tb _))
    cases eb with
    | none => exact hThen
    | some es4 =>
      exact errsExt_exitScope (errsExt_comp (errsExt_enterScope hThen)
        (checkStatements_errors es4 _))
termination_by sizeOf s

theorem checkStatements_errors (l : List Ast.Stmt) (st : SemanticAnalyzer) :
    ErrsExt st.errors (checkStatements st l) := by
  cases l with
  | nil => exact errsExt_refl st
  | cons s rest =>
    simp only [checkStatements]
    exact errsExt_comp (checkStatement_errors s st)
      (checkStatements_errors rest (checkStatement st s))
termination_by sizeOf l

end

end Semantic

namespace Semantic

theorem insertCurrent_scopes {st : SemanticAnalyzer} {h : Scope} {tl : List Scope}
    (hs : st.scopes = h :: tl) (name : String) (t : Ty) :
    (insertCurrent st name t).scopes = scInsert h name t :: tl := by
  unfold insertCurrent
  simp only [hs]

theorem exitScope_cons {st : SemanticAnalyzer} {a b : Scope} {tl : List Scope}
    (hs : st.scopes = a :: b :: tl) : (exitScope st).scopes = b :: tl := by
  unfold exitScope
  simp [hs]

theorem enterScope_scopes (st : SemanticAnalyzer) :
    (enterScope st).scopes = [] :: st.scopes := rfl

mutual

/-- A statement only ever modifies the innermost scope (by inserting
declarations); the outer scopes come back unchanged. -/
theorem checkStatement_scopes (s : Ast.Stmt) (st : SemanticAnalyzer) (h : Scope)
    (tl : List Scope) (hs : st.scopes = h :: tl) :
    ∃ h2, (checkStatement st s).scopes = h2 :: tl := by
  cases s with
  | VarDeclaration name value =>
    show ∃ h2, (checkVarDeclaration st name value).scopes = h2 :: tl
    unfold checkVarDeclaration
    simp only [hs]
    split
    · exact ⟨h, by rw [addError_scopes, hs]⟩
    · refine ⟨scInsert h name Ty.Int, ?_⟩
      refine insertCurrent_scopes ?_ name Ty.Int
      split
      · rw [addError_scopes, checkExpression_scopes, hs]
      · rw [checkExpression_scopes, hs]
  | Print e =>
    exact ⟨h, by simp only [checkStatement]; rw [checkExpression_scopes, hs]⟩
  | If c tb eb =>
    rw [checkStatement_if]
    unfold checkIfStatement
    dsimp only
    have h1 : (if ((checkExpression st c).2 != Ty.Bool &&
        (checkExpression st c).2 != Ty.Unknown) = true then
          addError (checkExpression st c).1
            (.TypeMismatch .Bool (checkExpression st c).2 "if condition must be boolean")
        else (checkExpression st c).1).scopes = h :: tl := by
      split
      · rw [addError_scopes, checkExpression_scopes, hs]
      · rw [checkExpression_scopes, hs]
    obtain ⟨stC, hXdef, hCs⟩ :
        ∃ stC, (if ((checkExpression st c).2 != Ty.Bool &&
          (checkExpression st c).2 != Ty.Unknown) = true then
            addError (checkExpression st c).1
              (.TypeMismatch .Bool (checkExpression st c).2 "if condition must be boolean")
          else (checkExpression st c).1) = stC ∧ stC.scopes = h :: tl :=
      ⟨_, rfl, h1⟩
    rw [hXdef]
    obtain ⟨h2, hh2⟩ := checkStatements_scopes tb (enterScope stC) [] (h :: tl)
      (by simp only [enterScope_scopes, hCs])
    have hThen : (exitScope (checkStatements (enterScope stC) tb)).scopes = h :: tl :=
      exitScope_cons hh2
    cases eb with
    | none => exact ⟨h, hThen⟩
    | some es4 =>
      obtain ⟨h3, hh3⟩ := checkStatements_scopes es4
        (enterScope (exitScope (checkStatements (enterScope stC) tb))) [] (h :: tl)
        (by simp only [enterScope_scopes, hThen])
      exact ⟨h, exitScope_cons hh3⟩
termination_by sizeOf s

theorem checkStatements_scopes (l : List Ast.Stmt) (st : SemanticAnalyzer)
    (h : Scope) (tl : List Scope) (hs : st.scopes = h :: tl) :
    ∃ h2, (checkStatements st l).scopes = h2 :: tl := by
  cases l with
  | nil => exact ⟨h, by simpa [checkStatements] using hs⟩
  | cons s rest =>
    obtain ⟨h2, hh2⟩ := checkStatement_scopes s st h tl hs
    obtain ⟨h3, hh3⟩ := checkStatements_scopes rest (checkStatement st s) h2 tl hh2
    exact ⟨h3, by simpa [checkStatements] using hh3⟩
termination_by sizeOf l

end

/-- `check_if_statement` leaves the scope stack exactly as it found it:
each branch's scope is pushed on entry and popped on exit, and the
branch bodies only touch that pushed scope's head or deeper, never the
surrounding stack. -/
theorem checkIfStatement_scopes (st : SemanticAnalyzer) (c : Ast.Expr)
    (tb : List Ast.Stmt) (eb : Option (List Ast.Stmt)) (hne : st.scopes ≠ []) :
    (checkIfStatement st c tb eb).scopes = st.scopes := by
  obtain ⟨h, tl, hs⟩ : ∃ h tl, st.scopes = h :: tl := by
    cases hh : st.scopes with
    | nil => exact absurd hh hne
    | cons a b => exact ⟨a, b, rfl⟩
  unfold checkIfStatement
  dsimp only
  have h1 : (if ((checkExpression st c).2 != Ty.Bool &&
      (checkExpression st c).2 != Ty.Unknown) = true then
        addError (checkExpression st c).1
          (.TypeMismatch .Bool (checkExpression st c).2 "if condition must be boolean")
      else (checkExpression st c).1).scopes = h :: tl := by
    split
    · rw [addError_scopes, checkExpression_scopes, hs]
    · rw [checkExpression_scopes, hs]
  obtain ⟨stC, hXdef, hCs⟩ :
      ∃ stC, (if ((checkExpression st c).2 != Ty.Bool &&
        (checkExpression st c).2 != Ty.Unknown) = true then
          addError (checkExpression st c).1
            (.TypeMismatch .Bool (checkExpression st c).2 "if condition must be boolean")
        else (checkExpression st c).1) = stC ∧ stC.scopes = h :: tl :=
    ⟨_, rfl, h1⟩
  rw [hXdef]
  obtain ⟨h2, hh2⟩ := checkStatements_scopes tb (enterScope stC) [] (h :: tl)
    (by simp only [enterScope_scopes, hCs])
  have hThen : (exitScope (checkStatements (enterScope stC) tb)).scopes = h :: tl :=
    exitScope_cons hh2
  cases eb with
  | none => rw [hThen, hs]
  | some es4 =>
    obtain ⟨h3, hh3⟩ := checkStatements_scopes es4
      (enterScope (exitScope (checkStatements (enterScope stC) tb))) [] (h :: tl)
      (by simp only [enterScope_scopes, hThen])
    rw [exitScope_cons hh3, hs]

end Semantic

/-- The spec's scoping example `if (1 > 0) { int a = 1; } print(a);`. -/
def scopeProgram : List Ast.Stmt :=
  [.If (.Binary (.IntegerLiteral 1) .GreaterThan (.IntegerLiteral 0))
    [.VarDeclaration "a" (.IntegerLiteral 1)] none,
   .Print (.Identifier "a")]

/-- C7: a branch's scope is created on entry and discarded on exit —
`check_if_statement` returns the scope stack exactly as it received it
(first conjunct, for every analyzer state with the always-present
global scope), so a variable declared inside an `if` branch is out of
scope afterwards: analyzing `if (1 > 0) { int a = 1; } print(a);`
yields exactly the `UndeclaredVariable("a")` diagnostic (second
conjunct). -/
theorem C7_theorem :
    (∀ (st : Semantic.SemanticAnalyzer) (c : Ast.Expr) (tb : List Ast.Stmt)
      (eb : Option (List Ast.Stmt)), st.scopes ≠ [] →
        (Semantic.checkIfStatement st c tb eb).scopes = st.scopes) ∧
    Semantic.analyzeProgram scopeProgram = .error [.UndeclaredVariable "a"] :=
  ⟨Semantic.checkIfStatement_scopes, rfl⟩

/-- Witness for C7: its universal part applied to the fresh analyzer
state (whose scope stack holds the global scope, hence is non-empty)
and the example's `if`. -/
theorem C7_witness :
    (Semantic.checkIfStatement Semantic.SemanticAnalyzer.new
        (.Binary (.IntegerLiteral 1) .GreaterThan (.IntegerLiteral 0))
        [.VarDeclaration "a" (.IntegerLiteral 1)] none).scopes =
      Semantic.SemanticAnalyzer.new.scopes :=
  C7_theorem.1 Semantic.SemanticAnalyzer.new
    (.Binary (.IntegerLiteral 1) .GreaterThan (.IntegerLiteral 0))
    [.VarDeclaration "a" (.IntegerLiteral 1)] none (by simp [Semantic.SemanticAnalyzer.new])

/-- The two-violation program `int x = "hi"; print(y);` for C5: the
analyzer must record the declaration's type mismatch AND continue to
find the undeclared `y`. -/
def twoErrProgram : List Ast.Stmt :=
  [.VarDeclaration "x" (.StringLiteral "hi"), .Print (.Identifier "y")]

/-- C5: semantic analysis accumulates diagnostics instead of stopping —
every statement check only appends to the error list (first conjunct),
`analyze` answers `Ok` exactly when the accumulated list is empty
(second conjunct) and otherwise `Err` with the full accumulated list
(third conjunct); concretely, `int x = "hi"; print(y);` yields BOTH
diagnostics in order (fourth conjunct), the second found after the
first was recorded. -/
theorem C5_theorem :
    (∀ (s : Ast.Stmt) (st : Semantic.SemanticAnalyzer),
      ∃ es, (Semantic.checkStatement st s).errors = st.errors ++ es) ∧
    (∀ (st : Semantic.SemanticAnalyzer) (stmts : List Ast.Stmt),
      Semantic.analyze st stmts = .ok () ↔
        (Semantic.checkStatements st stmts).errors = []) ∧
    (∀ (st : Semantic.SemanticAnalyzer) (stmts : List Ast.Stmt),
      Semantic.analyze st stmts = .ok () ∨
        Semantic.analyze st stmts = .error (Semantic.checkStatements st stmts).errors) ∧
    Semantic.analyzeProgram twoErrProgram =
      .error [.TypeMismatch .Int .String "initializer for 'x' must be Int",
        .UndeclaredVariable "y"] := by
  refine ⟨fun s st => Semantic.checkStatement_errors s st, fun st stmts => ?_,
    fun st stmts => ?_, rfl⟩
  · unfold Semantic.analyze
    by_cases h : (Semantic.checkStatements st stmts).errors = [] <;>
      simp [h, List.isEmpty_iff]
  · unfold Semantic.analyze
    by_cases h : (Semantic.checkStatements st stmts).errors = [] <;>
      simp [h, List.isEmpty_iff]


namespace Lexing

/-- Every candidate the selection loop accepts starts at or after the
`last_end` the loop was entered with: for well-formed spans
(`start ≤ end`, true of every regex match) the consumed span only
grows. -/
theorem selectMatches_start_ge (l : List Cand) (lastEnd : Nat) (x : Cand)
    (hwf : ∀ y ∈ l, y.2.1 ≤ y.2.2)
    (hx : x ∈ selectMatches lastEnd l) : lastEnd ≤ x.2.1 := by
  induction l generalizing lastEnd with
  | nil => simp [selectMatches] at hx
  | cons c rest ih =>
    have hwfr : ∀ y ∈ rest, y.2.1 ≤ y.2.2 := fun y hy => hwf y (List.mem_cons_of_mem c hy)
    have hwfc : c.2.1 ≤ c.2.2 := hwf c (List.mem_cons_self c rest)
    simp only [selectMatches] at hx
    split at hx
    · exact ih lastEnd hwfr hx
    · rcases List.mem_cons.mp hx with rfl | hx
      · omega
      · have := ih c.2.2 hwfr hx
        omega

theorem insertCand_mem (x y : Cand) (l : List Cand) :
    y ∈ insertCand x l ↔ y = x ∨ y ∈ l := by
  induction l with
  | nil => simp [insertCand]
  | cons z zs ih =>
    simp only [insertCand]
    split
    · simp only [List.mem_cons, ih]
      tauto
    · simp [List.mem_cons]

theorem candLe_total (a b : Cand) : candLe a b = true ∨ candLe b a = true := by
  simp only [candLe, Bool.or_eq_true, Bool.and_eq_true, decide_eq_true_eq, beq_iff_eq]
  omega

theorem candLe_trans {a b c : Cand} (h1 : candLe a b = true) (h2 : candLe b c = true) :
    candLe a c = true := by
  simp only [candLe, Bool.or_eq_true, Bool.and_eq_true, decide_eq_true_eq,
    beq_iff_eq] at h1 h2 ⊢
  omega

theorem insertCand_pairwise (x : Cand) (l : List Cand)
    (hl : l.Pairwise (fun a b => candLe a b = true)) :
    (insertCand x l).Pairwise (fun a b => candLe a b = true) := by
  induction l with
  | nil => simp [insertCand]
  | cons z zs ih =>
    rw [List.pairwise_cons] at hl
    obtain ⟨hz, hzs⟩ := hl
    simp only [insertCand]
    split
    · refine List.Pairwise.cons ?_ (ih hzs)
      intro y hy
      rcases (insertCand_mem x y zs).mp hy with rfl | hy
      · assumption
      · exact hz y hy
    · have hxz : candLe x z = true := by
        rcases candLe_total x z with h | h
        · exact h
        · simp_all
      refine List.Pairwise.cons ?_ (List.Pairwise.cons hz hzs)
      intro y hy
      rcases List.mem_cons.mp hy with rfl | hy
      · exact hxz
      · exact candLe_trans hxz (hz y hy)

theorem sortCands_pairwise_aux (l : List Cand) (acc : List Cand)
    (hacc : acc.Pairwise (fun a b => candLe a b = true)) :
    (l.foldl (fun acc x => insertCand x acc) acc).Pairwise
      (fun a b => candLe a b = true) := by
  induction l generalizing acc with
  | nil => simpa
  | cons x xs ih => exact ih (insertCand x acc) (insertCand_pairwise x acc hacc)

/-- The sorted candidate list is ordered by the sort comparator
(position ascending, length descending). -/
theorem sortCands_pairwise (l : List Cand) :
    (sortCands l).Pairwise (fun a b => candLe a b = true) :=
  sortCands_pairwise_aux l [] (by simp)

theorem sortCands_mem_aux (l : List Cand) (acc : List Cand) (x : Cand) :
    x ∈ l.foldl (fun acc y => insertCand y acc) acc ↔ x ∈ l ∨ x ∈ acc := by
  induction l generalizing acc with
  | nil => simp
  | cons y ys ih =>
    simp only [List.foldl_cons, ih, insertCand_mem, List.mem_cons]
    tauto

/-- Sorting neither adds nor drops candidates. -/
theorem sortCands_mem (l : List Cand) (x : Cand) : x ∈ sortCands l ↔ x ∈ l := by
  simp [sortCands, sortCands_mem_aux]

/-- Longest match wins: when two candidates of a sorted,
well-formed-span list start at the same position, the shorter one is
never accepted by the selection loop (either the longer one is accepted
first, pushing `last_end` past their common start, or something even
earlier already did). -/
theorem shorter_not_selected (l : List Cand) (lastEnd : Nat)
    (hwf : ∀ y ∈ l, y.2.1 ≤ y.2.2)
    (hp : l.Pairwise (fun a b => candLe a b = true))
    (t1 t2 : String) (s e1 e2 : Nat) (hse : s ≤ e2) (hlen : e2 < e1)
    (h1 : (t1, s, e1) ∈ l) (h2 : (t2, s, e2) ∈ l) :
    (t2, s, e2) ∉ selectMatches lastEnd l := by
  induction l generalizing lastEnd with
  | nil => simp [selectMatches]
  | cons c rest ih =>
    rw [List.pairwise_cons] at hp
    obtain ⟨hcall, hrest⟩ := hp
    have hwfr : ∀ y ∈ rest, y.2.1 ≤ y.2.2 := fun y hy => hwf y (List.mem_cons_of_mem c hy)
    by_cases hc2 : c = (t2, s, e2)
    · subst hc2
      have h1' : (t1, s, e1) ∈ rest := by
        rcases List.mem_cons.mp h1 with heq | hmem
        · exfalso
          injection heq with ha hb
          injection hb with hb hc
          omega
        · exact hmem
      have := hcall _ h1'
      simp only [candLe, Bool.or_eq_true, Bool.and_eq_true, decide_eq_true_eq,
        beq_iff_eq] at this
      omega
    · have h2' : (t2, s, e2) ∈ rest := by
        rcases List.mem_cons.mp h2 with heq | hmem
        · exact absurd heq.symm hc2
        · exact hmem
      simp only [selectMatches]
      split
      · rename_i hcond
        by_cases hc1 : c = (t1, s, e1)
        · subst hc1
          intro hmem
          have := selectMatches_start_ge rest lastEnd _ hwfr hmem
          simp at this hcond
          omega
        · have h1' : (t1, s, e1) ∈ rest := by
            rcases List.mem_cons.mp h1 with heq | hmem
            · exact absurd heq.symm hc1
            · exact hmem
          exact ih lastEnd hwfr hrest h1' h2'
      · intro hmem
        rcases List.mem_cons.mp hmem with heq | hmem
        · exact hc2 heq.symm
        · by_cases hc1 : c = (t1, s, e1)
          · subst hc1
            have := selectMatches_start_ge rest e1 _ hwfr hmem
            simp at this
            omega
          · have h1' : (t1, s, e1) ∈ rest := by
              rcases List.mem_cons.mp h1 with heq | hmem2
              · exact absurd heq.symm hc1
              · exact hmem2
            exact ih c.2.2 hwfr hrest h1' h2' hmem

end Lexing

/-- C6: for every pair of candidate matches that start at the same
input position (with well-formed spans, as every regex match has), the
lexer never accepts the shorter one — after the stable sort the longer
candidate precedes it, so either the longer is accepted (consuming past
their common start) or an even earlier acceptance already covered it
(first conjunct); in particular the input `if2` lexes as the single
identifier token `if2`, not as `if` followed by `2` (second
conjunct). -/
theorem C6_theorem :
    (∀ (ms : List Lexing.Cand) (lastEnd : Nat) (t1 t2 : String) (s e1 e2 : Nat),
      (∀ y ∈ ms, y.2.1 ≤ y.2.2) → s ≤ e2 → e2 < e1 →
      (t1, s, e1) ∈ ms → (t2, s, e2) ∈ ms →
      (t2, s, e2) ∉ Lexing.selectMatches lastEnd (Lexing.sortCands ms)) ∧
    Lexing.lexProgram "if2" = [.Identifier "if2"] := by
  refine ⟨fun ms lastEnd t1 t2 s e1 e2 hwf hse hlen h1 h2 => ?_, by decide⟩
  exact Lexing.shorter_not_selected (Lexing.sortCands ms) lastEnd
    (fun y hy => hwf y ((Lexing.sortCands_mem ms y).mp hy))
    (Lexing.sortCands_pairwise ms) t1 t2 s e1 e2 hse hlen
    ((Lexing.sortCands_mem ms _).mpr h1) ((Lexing.sortCands_mem ms _).mpr h2)

/-- Witness for C6: on the actual candidate set of the input `if2`
(the keyword match `("If",0,2)`, the digit match `("IntegerLiteral",2,3)`
and the identifier match `("Identifier",0,3)`), the shorter same-start
candidate `("If",0,2)` is not accepted. -/
theorem C6_witness :
    ("If", 0, 2) ∉ Lexing.selectMatches 0
      (Lexing.sortCands (Lexing.lexCandidates "if2".toList)) :=
  C6_theorem.1 (Lexing.lexCandidates "if2".toList) 0 "Identifier" "If" 0 3 2
    (by decide) (by decide) (by decide) (by decide) (by decide)

namespace Codegen

open Ast

theorem needExpr_pos (e : Expr) : 1 ≤ needExpr e := by
  induction e with
  | IntegerLiteral n => simp [needExpr]
  | StringLiteral s => simp [needExpr]
  | Identifier name => simp [needExpr]
  | Assign name value ih => simpa [needExpr] using ih
  | Binary l op r ihl ihr => simp [needExpr]

theorem emit_tempRegs (st : CodegenState) (l : String) :
    (emit st l).tempRegs = st.tempRegs := rfl

theorem internString_tempRegs (st : CodegenState) (s : String) :
    (internString st s).2.tempRegs = st.tempRegs := rfl

theorem freshLabel_tempRegs (st : CodegenState) (b : String) :
    (freshLabel st b).2.tempRegs = st.tempRegs := rfl

theorem freeTmp_tempRegs (st : CodegenState) (r : String) :
    (freeTmp st r).tempRegs = st.tempRegs ++ [r] := rfl

theorem allocateVar_tempRegs (st : CodegenState) (n : String) :
    (allocateVar st n).2.tempRegs = st.tempRegs := by
  unfold allocateVar
  cases h : (st.varOffsets.find? (fun p => p.1 == n)).map (fun p => p.2) <;> rfl

theorem allocTmp_empty (st : CodegenState) (h : st.tempRegs = []) :
    allocTmp st = none := by
  simp [allocTmp, h]

theorem allocTmp_ok {st : CodegenState} {r : String} {st2 : CodegenState}
    (h : allocTmp st = some (r, st2)) :
    st.tempRegs = st2.tempRegs ++ [r] ∧ st2.instrs = st.instrs ∧
      st2.varOffsets = st.varOffsets ∧ st2.dataStrings = st.dataStrings := by
  unfold allocTmp at h
  rcases List.eq_nil_or_concat st.tempRegs with hl | ⟨l2, a, hl⟩
  · simp [hl] at h
  · rw [List.concat_eq_append] at hl
    rw [hl, List.getLast?_concat] at h
    injection h with h
    injection h with h1 h2
    subst h1
    rw [← h2, hl]
    simp [List.dropLast_concat]

theorem allocTmp_nonempty (st : CodegenState) (h : st.tempRegs ≠ []) :
    ∃ r st2, allocTmp st = some (r, st2) := by
  unfold allocTmp
  rcases List.eq_nil_or_concat st.tempRegs with hl | ⟨l2, a, hl⟩
  · exact absurd hl h
  · rw [List.concat_eq_append] at hl
    rw [hl, List.getLast?_concat]
    exact ⟨a, _, rfl⟩

theorem tempRegs_nil_of_lt_one {st : CodegenState} (h : st.tempRegs.length < 1) :
    st.tempRegs = [] :=
  List.length_eq_zero.mp (by omega)

/-- `gen_expr` characterized by `needExpr`: with enough free registers
it succeeds, returning a register `r` and a state whose pool is exactly
the old pool minus `r` (popped from the top); with fewer it aborts with
the register-exhaustion panic.  In particular it never touches (reuses)
a register that is still live — it only ever pops free ones. -/
theorem genExpr_spec (e : Expr) (st : CodegenState) :
    (needExpr e ≤ st.tempRegs.length →
      ∃ r st2, genExpr st e = .ok (r, st2) ∧ st.tempRegs = st2.tempRegs ++ [r]) ∧
    (st.tempRegs.length < needExpr e → genExpr st e = .error outOfRegs) := by
  induction e generalizing st with
  | IntegerLiteral n =>
    constructor
    · intro h
      have hne : st.tempRegs ≠ [] := by
        intro hh
        rw [hh] at h
        simp [needExpr] at h
      obtain ⟨r, st2, ha⟩ := allocTmp_nonempty st hne
      obtain ⟨htr, -, -, -⟩ := allocTmp_ok ha
      simp only [genExpr, ha]
      exact ⟨r, _, rfl, by simpa [emit_tempRegs] using htr⟩
    · intro h
      have hnil := tempRegs_nil_of_lt_one (by simpa [needExpr] using h)
      simp [genExpr, allocTmp_empty st hnil]
  | StringLiteral s =>
    constructor
    · intro h
      have hne : (internString st s).2.tempRegs ≠ [] := by
        rw [internString_tempRegs]
        intro hh
        rw [hh] at h
        simp [needExpr] at h
      obtain ⟨r, st2, ha⟩ := allocTmp_nonempty _ hne
      obtain ⟨htr, -, -, -⟩ := allocTmp_ok ha
      rw [internString_tempRegs] at htr
      simp only [genExpr, ha]
      exact ⟨r, _, rfl, by simpa [emit_tempRegs] using htr⟩
    · intro h
      have hnil : (internString st s).2.tempRegs = [] := by
        rw [internString_tempRegs]
        exact tempRegs_nil_of_lt_one (by simpa [needExpr] using h)
      simp [genExpr, allocTmp_empty _ hnil]
  | Identifier name =>
    constructor
    · intro h
      have hne : st.tempRegs ≠ [] := by
        intro hh
        rw [hh] at h
        simp [needExpr] at h
      obtain ⟨r, st2, ha⟩ := allocTmp_nonempty st hne
      obtain ⟨htr, -, -, -⟩ := allocTmp_ok ha
      cases hlk : lookupVar st2 name with
      | some off =>
        simp only [genExpr, ha, hlk]
        exact ⟨r, _, rfl, by simpa [emit_tempRegs] using htr⟩
      | none =>
        simp only [genExpr, ha, hlk]
        exact ⟨r, _, rfl, by simpa [emit_tempRegs] using htr⟩
    · intro h
      have hnil := tempRegs_nil_of_lt_one (by simpa [needExpr] using h)
      simp [genExpr, allocTmp_empty st hnil]
  | Assign name value ih =>
    constructor
    · intro h
      obtain ⟨r, st2, hok, htr⟩ := (ih st).1 (by simpa [needExpr] using h)
      simp only [genExpr, hok]
      exact ⟨r, _, rfl, by simpa [emit_tempRegs, allocateVar_tempRegs] using htr⟩
    · intro h
      have herr := (ih st).2 (by simpa [needExpr] using h)
      simp [genExpr, herr]
  | Binary l op r ihl ihr =>
    constructor
    · intro h
      simp only [needExpr, max_le_iff] at h
      obtain ⟨rL, st2, hokL, htrL⟩ := (ihl st).1 h.1
      have hlen2 : st2.tempRegs.length + 1 = st.tempRegs.length := by
        rw [htrL]; simp
      obtain ⟨rR, st3, hokR, htrR⟩ := (ihr st2).1 (by omega)
      cases op <;> simp only [genExpr, hokL, hokR] <;>
        exact ⟨rL, _, rfl,
          by simp [freeTmp_tempRegs, emit_tempRegs, ← htrR, htrL]⟩
    · intro h
      simp only [needExpr] at h
      by_cases hl : st.tempRegs.length < needExpr l
      · have herr := (ihl st).2 hl
        simp [genExpr, herr]
      · push_neg at hl
        obtain ⟨rL, st2, hokL, htrL⟩ := (ihl st).1 hl
        have hlen2 : st2.tempRegs.length + 1 = st.tempRegs.length := by
          rw [htrL]; simp
        have herr := (ihr st2).2 (by omega)
        simp [genExpr, hokL, herr]

/-- `genPrint` (the `Print` arm) characterized by `needPrint`. -/
theorem genPrint_spec (e : Expr) (st : CodegenState) :
    (needPrint e ≤ st.tempRegs.length →
      ∃ st2, genPrint st e = .ok st2 ∧ st2.tempRegs = st.tempRegs) ∧
    (st.tempRegs.length < needPrint e → genPrint st e = .error outOfRegs) := by
  cases e with
  | StringLiteral s =>
    constructor
    · intro h
      simp only [genPrint]
      exact ⟨_, rfl, by simp [emit_tempRegs, internString_tempRegs]⟩
    · intro h
      simp [needPrint] at h
  | IntegerLiteral n =>
    constructor
    · intro h
      obtain ⟨r, st2, hok, htr⟩ := (genExpr_spec _ st).1 (by simpa [needPrint] using h)
      simp only [genPrint, hok]
      refine ⟨_, rfl, ?_⟩
      rw [freeTmp_tempRegs, emit_tempRegs, emit_tempRegs, emit_tempRegs, ← htr]
    · intro h
      have herr := (genExpr_spec _ st).2 (by simpa [needPrint] using h)
      simp [genPrint, herr]
  | Identifier name =>
    constructor
    · intro h
      obtain ⟨r, st2, hok, htr⟩ := (genExpr_spec _ st).1 (by simpa [needPrint] using h)
      simp only [genPrint, hok]
      refine ⟨_, rfl, ?_⟩
      rw [freeTmp_tempRegs, emit_tempRegs, emit_tempRegs, emit_tempRegs, ← htr]
    · intro h
      have herr := (genExpr_spec _ st).2 (by simpa [needPrint] using h)
      simp [genPrint, herr]
  | Assign name value =>
    constructor
    · intro h
      obtain ⟨r, st2, hok, htr⟩ := (genExpr_spec _ st).1 (by simpa [needPrint] using h)
      simp only [genPrint, hok]
      refine ⟨_, rfl, ?_⟩
      rw [freeTmp_tempRegs, emit_tempRegs, emit_tempRegs, emit_tempRegs, ← htr]
    · intro h
      have herr := (genExpr_spec _ st).2 (by simpa [needPrint] using h)
      simp [genPrint, herr]
  | Binary l op r =>
    constructor
    · intro h
      obtain ⟨r2, st2, hok, htr⟩ := (genExpr_spec _ st).1 (by simpa [needPrint] using h)
      simp only [genPrint, hok]
      refine ⟨_, rfl, ?_⟩
      rw [freeTmp_tempRegs, emit_tempRegs, emit_tempRegs, emit_tempRegs, ← htr]
    · intro h
      have herr := (genExpr_spec _ st).2 (by simpa [needPrint] using h)
      simp [genPrint, herr]

mutual

/-- `gen_stmt` characterized by `needStmt`: with enough free registers
it succeeds and returns the pool exactly as it found it (every
temporary allocated during the statement is freed again); with fewer it
aborts with the register-exhaustion panic. -/
theorem genStmt_spec (s : Stmt) (st : CodegenState) :
    (needStmt s ≤ st.tempRegs.length →
      ∃ st2, genStmt st s = .ok st2 ∧ st2.tempRegs = st.tempRegs) ∧
    (st.tempRegs.length < needStmt s → genStmt st s = .error outOfRegs) := by
  cases s with
  | VarDeclaration name value =>
    have htemps : (allocateVar st name).2.tempRegs = st.tempRegs :=
      allocateVar_tempRegs st name
    constructor
    · intro h
      obtain ⟨r, st2, hok, htr⟩ := (genExpr_spec value (allocateVar st name).2).1
        (by rw [htemps]; simpa [needStmt] using h)
      simp only [genStmt, hok]
      refine ⟨_, rfl, ?_⟩
      rw [freeTmp_tempRegs, emit_tempRegs, ← htr, htemps]
    · intro h
      have herr := (genExpr_spec value (allocateVar st name).2).2
        (by rw [htemps]; simpa [needStmt] using h)
      simp [genStmt, herr]
  | Print e =>
    constructor
    · intro h
      obtain ⟨st2, hok, htr⟩ := (genPrint_spec e st).1 (by simpa [needStmt] using h)
      exact ⟨st2, by simp only [genStmt]; exact hok, htr⟩
    · intro h
      have herr := (genPrint_spec e st).2 (by simpa [needStmt] using h)
      simp only [genStmt]
      exact herr
  | If condition thenBlock elseBlock =>
    constructor
    · intro h
      cases elseBlock with
      | none =>
        simp only [needStmt, max_le_iff] at h
        obtain ⟨hc, hmax⟩ := h
        obtain ⟨rC, st2, hokC, htrC⟩ := (genExpr_spec condition st).1 hc
        have hlen2 : st2.tempRegs.length + 1 = st.tempRegs.length := by
          rw [htrC]; simp
        simp only [genStmt, hokC]
        set pE := freshLabel st2 "else" with hpE
        set pEnd := freshLabel pE.2 "end_if" with hpEnd
        set stB := emit
          (emit pEnd.2 s!"\tcmp {rC}, #0               // compare condition with 0")
          s!"\tbeq {pE.1}                 // if equal (false) branch to else" with hstB
        have hstBtemps : stB.tempRegs = st2.tempRegs := by
          rw [hstB, hpEnd, hpE]
          simp [emit_tempRegs, freshLabel_tempRegs]
        obtain ⟨st3, hok3, htr3⟩ := (genStmts_spec thenBlock stB).1
          (by rw [hstBtemps]; omega)
        simp only [hok3]
        refine ⟨_, rfl, ?_⟩
        rw [freeTmp_tempRegs, emit_tempRegs, emit_tempRegs, emit_tempRegs,
          htr3, hstBtemps, ← htrC]
      | some es4 =>
        simp only [needStmt, max_le_iff] at h
        obtain ⟨hc, hmax⟩ := h
        obtain ⟨rC, st2, hokC, htrC⟩ := (genExpr_spec condition st).1 hc
        have hlen2 : st2.tempRegs.length + 1 = st.tempRegs.length := by
          rw [htrC]; simp
        simp only [genStmt, hokC]
        set pE := freshLabel st2 "else" with hpE
        set pEnd := freshLabel pE.2 "end_if" with hpEnd
        set stB := emit
          (emit pEnd.2 s!"\tcmp {rC}, #0               // compare condition with 0")
          s!"\tbeq {pE.1}                 // if equal (false) branch to else" with hstB
        have hstBtemps : stB.tempRegs = st2.tempRegs := by
          rw [hstB, hpEnd, hpE]
          simp [emit_tempRegs, freshLabel_tempRegs]
        obtain ⟨st3, hok3, htr3⟩ := (genStmts_spec thenBlock stB).1
          (by rw [hstBtemps]; omega)
        simp only [hok3]
        set stD := emit
          (emit st3 s!"\tb {pEnd.1}                    // jump to end_if after then")
          s!"\t{pE.1}:                      // else label" with hstD
        have hstDtemps : stD.tempRegs = st2.tempRegs := by
          rw [hstD]
          rw [emit_tempRegs, emit_tempRegs, htr3, hstBtemps]
        obtain ⟨st5, hok5, htr5⟩ := (genStmts_spec es4 stD).1
          (by rw [hstDtemps]; omega)
        simp only [hok5]
        refine ⟨_, rfl, ?_⟩
        rw [freeTmp_tempRegs, emit_tempRegs, htr5, hstDtemps, ← htrC]
    · intro h
      cases elseBlock with
      | none =>
        simp only [needStmt] at h
        by_cases hcb : st.tempRegs.length < needExpr condition
        · have herr := (genExpr_spec condition st).2 hcb
          simp [genStmt, herr]
        · push_neg at hcb
          obtain ⟨rC, st2, hokC, htrC⟩ := (genExpr_spec condition st).1 hcb
          have hlen2 : st2.tempRegs.length + 1 = st.tempRegs.length := by
            rw [htrC]; simp
          simp only [genStmt, hokC]
          set pE := freshLabel st2 "else" with hpE
          set pEnd := freshLabel pE.2 "end_if" with hpEnd
          set stB := emit
            (emit pEnd.2 s!"\tcmp {rC}, #0               // compare condition with 0")
            s!"\tbeq {pE.1}                 // if equal (false) branch to else" with hstB
          have hstBtemps : stB.tempRegs = st2.tempRegs := by
            rw [hstB, hpEnd, hpE]
            simp [emit_tempRegs, freshLabel_tempRegs]
          have herr3 := (genStmts_spec thenBlock stB).2 (by rw [hstBtemps]; omega)
          simp [herr3]
      | some es4 =>
        simp only [needStmt] at h
        by_cases hcb : st.tempRegs.length < needExpr condition
        · have herr := (genExpr_spec condition st).2 hcb
          simp [genStmt, herr]
        · push_neg at hcb
          obtain ⟨rC, st2, hokC, htrC⟩ := (genExpr_spec condition st).1 hcb
          have hlen2 : st2.tempRegs.length + 1 = st.tempRegs.length := by
            rw [htrC]; simp
          simp only [genStmt, hokC]
          set pE := freshLabel st2 "else" with hpE
          set pEnd := freshLabel pE.2 "end_if" with hpEnd
          set stB := emit
            (emit pEnd.2 s!"\tcmp {rC}, #0               // compare condition with 0")
            s!"\tbeq {pE.1}                 // if equal (false) branch to else" with hstB
          have hstBtemps : stB.tempRegs = st2.tempRegs := by
            rw [hstB, hpEnd, hpE]
            simp [emit_tempRegs, freshLabel_tempRegs]
          by_cases htb : st2.tempRegs.length < needStmts thenBlock
          · have herr3 := (genStmts_spec thenBlock stB).2 (by rw [hstBtemps]; omega)
            simp [herr3]
          · push_neg at htb
            obtain ⟨st3, hok3, htr3⟩ := (genStmts_spec thenBlock stB).1
              (by rw [hstBtemps]; omega)
            simp only [hok3]
            set stD := emit
              (emit st3 s!"\tb {pEnd.1}                    // jump to end_if after then")
              s!"\t{pE.1}:                      // else label" with hstD
            have hstDtemps : stD.tempRegs = st2.tempRegs := by
              rw [hstD]
              rw [emit_tempRegs, emit_tempRegs, htr3, hstBtemps]
            have herr5 := (genStmts_spec es4 stD).2 (by rw [hstDtemps]; omega)
            simp [herr5]
termination_by sizeOf s

/-- `gen_stmt` over a statement list: the pool is restored between
statements, so the list succeeds iff each statement fits. -/
theorem genStmts_spec (l : List Stmt) (st : CodegenState) :
    (needStmts l ≤ st.tempRegs.length →
      ∃ st2, genStmts st l = .ok st2 ∧ st2.tempRegs = st.tempRegs) ∧
    (st.tempRegs.length < needStmts l → genStmts st l = .error outOfRegs) := by
  cases l with
  | nil =>
    constructor
    · intro h
      exact ⟨st, rfl, rfl⟩
    · intro h
      simp [needStmts] at h
  | cons s rest =>
    constructor
    · intro h
      simp only [needStmts, max_le_iff] at h
      obtain ⟨st2, hok2, htr2⟩ := (genStmt_spec s st).1 h.1
      obtain ⟨st3, hok3, htr3⟩ := (genStmts_spec rest st2).1 (by rw [htr2]; exact h.2)
      exact ⟨st3, by simp [genStmts, hok2, hok3], by rw [htr3, htr2]⟩
    · intro h
      simp only [needStmts] at h
      by_cases hs : st.tempRegs.length < needStmt s
      · have herr := (genStmt_spec s st).2 hs
        simp [genStmts, herr]
      · push_neg at hs
        obtain ⟨st2, hok2, htr2⟩ := (genStmt_spec s st).1 hs
        have herr := (genStmts_spec rest st2).2 (by rw [htr2]; omega)
        simp [genStmts, hok2, herr]
termination_by sizeOf l

end

/-- `Codegen::generate` succeeds exactly on the programs whose register
need fits the 7-register pool (`x9`–`x15`), and pool exhaustion is the
only failure: the error is always the `alloc_tmp` `expect` message. -/
theorem generate_spec (stmts : List Stmt) :
    ((∃ asm, generate stmts = .ok asm) ↔ needStmts stmts ≤ 7) ∧
    (generate stmts = .error outOfRegs ↔ 7 < needStmts stmts) := by
  have hlen : (emitPrologue CodegenState.new).tempRegs.length = 7 := rfl
  by_cases h : needStmts stmts ≤ 7
  · obtain ⟨st2, hok, -⟩ :=
      (genStmts_spec stmts (emitPrologue CodegenState.new)).1 (by omega)
    refine ⟨⟨fun _ => h, fun _ => ?_⟩,
      ⟨fun herr => ?_, fun hlt => absurd hlt (by omega)⟩⟩
    · cases hg : generate stmts with
      | ok a => exact ⟨a, rfl⟩
      | error e => simp [generate, hok] at hg
    · simp [generate, hok] at herr
  · push_neg at h
    have herr := (genStmts_spec stmts (emitPrologue CodegenState.new)).2 (by omega)
    refine ⟨⟨fun hex => ?_, fun hle => absurd h (by omega)⟩,
      ⟨fun _ => by omega, fun _ => ?_⟩⟩
    · obtain ⟨asm, hok⟩ := hex
      simp [generate, herr] at hok
    · simp only [generate, herr]

end Codegen

namespace Arm64

open Parsing

theorem emitA_temps (st : CodegenState) (l : String) :
    (emit st l).temps = st.temps := rfl

theorem internA_temps (st : CodegenState) (s : String) :
    (intern st s).2.temps = st.temps := rfl

theorem labelA_temps (st : CodegenState) (b : String) :
    (label st b).2.temps = st.temps := rfl

theorem freeTmpA_temps (st : CodegenState) (r : String) :
    (freeTmp st r).temps = st.temps ++ [r] := rfl

theorem allocVarA_temps (st : CodegenState) (n : String) :
    (allocVar st n).2.temps = st.temps := by
  unfold allocVar
  cases h : (st.vars.find? (fun p => p.1 == n)).map (fun p => p.2) <;> rfl

theorem allocTmpA_empty (st : CodegenState) (h : st.temps = []) :
    allocTmp st = none := by
  simp [allocTmp, h]

theorem allocTmpA_ok {st : CodegenState} {r : String} {st2 : CodegenState}
    (h : allocTmp st = some (r, st2)) :
    st.temps = st2.temps ++ [r] ∧ st2.instrs = st.instrs ∧
      st2.vars = st.vars ∧ st2.dataStrings = st.dataStrings := by
  unfold allocTmp at h
  rcases List.eq_nil_or_concat st.temps with hl | ⟨l2, a, hl⟩
  · simp [hl] at h
  · rw [List.concat_eq_append] at hl
    rw [hl, List.getLast?_concat] at h
    injection h with h
    injection h with h1 h2
    subst h1
    rw [← h2, hl]
    simp [List.dropLast_concat]

theorem allocTmpA_nonempty (st : CodegenState) (h : st.temps ≠ []) :
    ∃ r st2, allocTmp st = some (r, st2) := by
  unfold allocTmp
  rcases List.eq_nil_or_concat st.temps with hl | ⟨l2, a, hl⟩
  · exact absurd hl h
  · rw [List.concat_eq_append] at hl
    rw [hl, List.getLast?_concat]
    exact ⟨a, _, rfl⟩

theorem tempsA_nil_of_lt_one {st : CodegenState} (h : st.temps.length < 1) :
    st.temps = [] :=
  List.length_eq_zero.mp (by omega)

/-- The `arm64.rs` `gen_expr` characterized by its register need, as for
the other backend: success returns the popped register and the pool
minus that register; shortfall is the `expect` panic. -/
theorem genExprA_spec (e : Expr) (st : CodegenState) :
    (needExpr e ≤ st.temps.length →
      ∃ r st2, genExpr st e = .ok (r, st2) ∧ st.temps = st2.temps ++ [r]) ∧
    (st.temps.length < needExpr e → genExpr st e = .error outOfRegsA) := by
  induction e generalizing st with
  | IntegerLiteral n =>
    constructor
    · intro h
      have hne : st.temps ≠ [] := by
        intro hh
        rw [hh] at h
        simp [needExpr] at h
      obtain ⟨r, st2, ha⟩ := allocTmpA_nonempty st hne
      obtain ⟨htr, -, -, -⟩ := allocTmpA_ok ha
      simp only [genExpr, ha]
      exact ⟨r, _, rfl, by simpa [emitA_temps] using htr⟩
    · intro h
      have hnil := tempsA_nil_of_lt_one (by simpa [needExpr] using h)
      simp [genExpr, allocTmpA_empty st hnil]
  | StringLiteral s =>
    constructor
    · intro h
      have hne : (intern st s).2.temps ≠ [] := by
        rw [internA_temps]
        intro hh
        rw [hh] at h
        simp [needExpr] at h
      obtain ⟨r, st2, ha⟩ := allocTmpA_nonempty _ hne
      obtain ⟨htr, -, -, -⟩ := allocTmpA_ok ha
      rw [internA_temps] at htr
      simp only [genExpr, ha]
      exact ⟨r, _, rfl, by simpa [emitA_temps] using htr⟩
    · intro h
      have hnil : (intern st s).2.temps = [] := by
        rw [internA_temps]
        exact tempsA_nil_of_lt_one (by simpa [needExpr] using h)
      simp [genExpr, allocTmpA_empty _ hnil]
  | BooleanLiteral b =>
    constructor
    · intro h
      have hne : st.temps ≠ [] := by
        intro hh
        rw [hh] at h
        simp [needExpr] at h
      obtain ⟨r, st2, ha⟩ := allocTmpA_nonempty st hne
      obtain ⟨htr, -, -, -⟩ := allocTmpA_ok ha
      simp only [genExpr, ha]
      exact ⟨r, _, rfl, by simpa [emitA_temps] using htr⟩
    · intro h
      have hnil := tempsA_nil_of_lt_one (by simpa [needExpr] using h)
      simp [genExpr, allocTmpA_empty st hnil]
  | Identifier name =>
    constructor
    · intro h
      have hne : st.temps ≠ [] := by
        intro hh
        rw [hh] at h
        simp [needExpr] at h
      obtain ⟨r, st2, ha⟩ := allocTmpA_nonempty st hne
      obtain ⟨htr, -, -, -⟩ := allocTmpA_ok ha
      simp only [genExpr, ha]
      exact ⟨r, _, rfl, by simpa [emitA_temps] using htr⟩
    · intro h
      have hnil := tempsA_nil_of_lt_one (by simpa [needExpr] using h)
      simp [genExpr, allocTmpA_empty st hnil]
  | Assign name value ih =>
    constructor
    · intro h
      obtain ⟨r, st2, hok, htr⟩ := (ih st).1 (by simpa [needExpr] using h)
      simp only [genExpr, hok]
      exact ⟨r, _, rfl, by simpa [emitA_temps, allocVarA_temps] using htr⟩
    · intro h
      have herr := (ih st).2 (by simpa [needExpr] using h)
      simp [genExpr, herr]
  | Binary l op r ihl ihr =>
    constructor
    · intro h
      simp only [needExpr, max_le_iff] at h
      obtain ⟨rL, st2, hokL, htrL⟩ := (ihl st).1 h.1
      have hlen2 : st2.temps.length + 1 = st.temps.length := by
        rw [htrL]; simp
      obtain ⟨rR, st3, hokR, htrR⟩ := (ihr st2).1 (by omega)
      cases op <;> simp only [genExpr, hokL, hokR] <;>
        exact ⟨rL, _, rfl,
          by simp [freeTmpA_temps, emitA_temps, ← htrR, htrL]⟩
    · intro h
      simp only [needExpr] at h
      by_cases hl : st.temps.length < needExpr l
      · have herr := (ihl st).2 hl
        simp [genExpr, herr]
      · push_neg at hl
        obtain ⟨rL, st2, hokL, htrL⟩ := (ihl st).1 hl
        have hlen2 : st2.temps.length + 1 = st.temps.length := by
          rw [htrL]; simp
        have herr := (ihr st2).2 (by omega)
        simp [genExpr, hokL, herr]

/-- The `arm64.rs` `genPrint` (the `Print` arm) characterized by its
register need. -/
theorem genPrintA_spec (e : Expr) (st : CodegenState) :
    (needPrint e ≤ st.temps.length →
      ∃ st2, genPrint st e = .ok st2 ∧ st2.temps = st.temps) ∧
    (st.temps.length < needPrint e → genPrint st e = .error outOfRegsA) := by
  cases e with
  | StringLiteral s =>
    constructor
    · intro h
      simp only [genPrint]
      exact ⟨_, rfl, by simp [emitA_temps, internA_temps]⟩
    · intro h
      simp [needPrint] at h
  | IntegerLiteral n =>
    constructor
    · intro h
      obtain ⟨r, st2, hok, htr⟩ := (genExprA_spec _ st).1 (by simpa [needPrint] using h)
      simp only [genPrint, hok]
      refine ⟨_, rfl, ?_⟩
      rw [freeTmpA_temps, emitA_temps, emitA_temps, emitA_temps, emitA_temps, ← htr]
    · intro h
      have herr := (genExprA_spec _ st).2 (by simpa [needPrint] using h)
      simp [genPrint, herr]
  | BooleanLiteral b =>
    constructor
    · intro h
      obtain ⟨r, st2, hok, htr⟩ := (genExprA_spec _ st).1 (by simpa [needPrint] using h)
      simp only [genPrint, hok]
      refine ⟨_, rfl, ?_⟩
      rw [freeTmpA_temps, emitA_temps, emitA_temps, emitA_temps, emitA_temps, ← htr]
    · intro h
      have herr := (genExprA_spec _ st).2 (by simpa [needPrint] using h)
      simp [genPrint, herr]
  | Identifier name =>
    constructor
    · intro h
      obtain ⟨r, st2, hok, htr⟩ := (genExprA_spec _ st).1 (by simpa [needPrint] using h)
      simp only [genPrint, hok]
      refine ⟨_, rfl, ?_⟩
      rw [freeTmpA_temps, emitA_temps, emitA_temps, emitA_temps, emitA_temps, ← htr]
    · intro h
      have herr := (genExprA_spec _ st).2 (by simpa [needPrint] using h)
      simp [genPrint, herr]
  | Assign name value =>
    constructor
    · intro h
      obtain ⟨r, st2, hok, htr⟩ := (genExprA_spec _ st).1 (by simpa [needPrint] using h)
      simp only [genPrint, hok]
      refine ⟨_, rfl, ?_⟩
      rw [freeTmpA_temps, emitA_temps, emitA_temps, emitA_temps, emitA_temps, ← htr]
    · intro h
      have herr := (genExprA_spec _ st).2 (by simpa [needPrint] using h)
      simp [genPrint, herr]
  | Binary l op r =>
    constructor
    · intro h
      obtain ⟨r2, st2, hok, htr⟩ := (genExprA_spec _ st).1 (by simpa [needPrint] using h)
      simp only [genPrint, hok]
      refine ⟨_, rfl, ?_⟩
      rw [freeTmpA_temps, emitA_temps, emitA_temps, emitA_temps, emitA_temps, ← htr]
    · intro h
      have herr := (genExprA_spec _ st).2 (by simpa [needPrint] using h)
      simp [genPrint, herr]

end Arm64

namespace Arm64

open Parsing

mutual

/-- The `arm64.rs` `gen_stmt` characterized by `needStmt`: success
restores the register pool exactly; shortfall is the `expect` panic. -/
theorem genStmtA_spec (s : Stmt) (st : CodegenState) :
    (needStmt s ≤ st.temps.length →
      ∃ st2, genStmt st s = .ok st2 ∧ st2.temps = st.temps) ∧
    (st.temps.length < needStmt s → genStmt st s = .error outOfRegsA) := by
  cases s with
  | Block stmts =>
    constructor
    · intro h
      simp only [needStmt] at h
      obtain ⟨st2, hok, htr⟩ := (genStmtsA_spec stmts st).1 h
      exact ⟨st2, by simp only [genStmt]; exact hok, htr⟩
    · intro h
      simp only [needStmt] at h
      have herr := (genStmtsA_spec stmts st).2 h
      simp only [genStmt]
      exact herr
  | VarDeclaration name value =>
    have htemps : (allocVar st name).2.temps = st.temps := allocVarA_temps st name
    constructor
    · intro h
      obtain ⟨r, st2, hok, htr⟩ := (genExprA_spec value (allocVar st name).2).1
        (by rw [htemps]; simpa [needStmt] using h)
      simp only [genStmt, hok]
      refine ⟨_, rfl, ?_⟩
      rw [freeTmpA_temps, emitA_temps, ← htr, htemps]
    · intro h
      have herr := (genExprA_spec value (allocVar st name).2).2
        (by rw [htemps]; simpa [needStmt] using h)
      simp [genStmt, herr]
  | Print e =>
    constructor
    · intro h
      obtain ⟨st2, hok, htr⟩ := (genPrintA_spec e st).1 (by simpa [needStmt] using h)
      exact ⟨st2, by simp only [genStmt]; exact hok, htr⟩
    · intro h
      have herr := (genPrintA_spec e st).2 (by simpa [needStmt] using h)
      simp only [genStmt]
      exact herr
  | ExprStmt e =>
    constructor
    · intro h
      obtain ⟨r, st2, hok, htr⟩ := (genExprA_spec e st).1 (by simpa [needStmt] using h)
      simp only [genStmt, hok]
      refine ⟨_, rfl, ?_⟩
      rw [freeTmpA_temps, ← htr]
    · intro h
      have herr := (genExprA_spec e st).2 (by simpa [needStmt] using h)
      simp [genStmt, herr]
  | If condition thenBlock elseBlock =>
    constructor
    · intro h
      cases elseBlock with
      | none =>
        simp only [needStmt, max_le_iff] at h
        obtain ⟨hc, hmax⟩ := h
        obtain ⟨rC, st2, hokC, htrC⟩ := (genExprA_spec condition st).1 hc
        have hlen2 : st2.temps.length + 1 = st.temps.length := by
          rw [htrC]; simp
        simp only [genStmt, hokC]
        set pE := label st2 "else" with hpE
        set pEnd := label pE.2 "endif" with hpEnd
        set stB := emit (emit pEnd.2 s!"\tcmp {rC}, #0") s!"\tbeq {pE.1}" with hstB
        have hstBtemps : stB.temps = st2.temps := by
          rw [hstB, hpEnd, hpE]
          simp [emitA_temps, labelA_temps]
        obtain ⟨st3, hok3, htr3⟩ := (genStmtsA_spec thenBlock stB).1
          (by rw [hstBtemps]; omega)
        simp only [hok3]
        refine ⟨_, rfl, ?_⟩
        rw [freeTmpA_temps, emitA_temps, emitA_temps, emitA_temps,
          htr3, hstBtemps, ← htrC]
      | some es4 =>
        simp only [needStmt, max_le_iff] at h
        obtain ⟨hc, hmax⟩ := h
        obtain ⟨rC, st2, hokC, htrC⟩ := (genExprA_spec condition st).1 hc
        have hlen2 : st2.temps.length + 1 = st.temps.length := by
          rw [htrC]; simp
        simp only [genStmt, hokC]
        set pE := label st2 "else" with hpE
        set pEnd := label pE.2 "endif" with hpEnd
        set stB := emit (emit pEnd.2 s!"\tcmp {rC}, #0") s!"\tbeq {pE.1}" with hstB
        have hstBtemps : stB.temps = st2.temps := by
          rw [hstB, hpEnd, hpE]
          simp [emitA_temps, labelA_temps]
        obtain ⟨st3, hok3, htr3⟩ := (genStmtsA_spec thenBlock stB).1
          (by rw [hstBtemps]; omega)
        simp only [hok3]
        set stD := emit (emit st3 s!"\tb {pEnd.1}") s!"{pE.1}:" with hstD
        have hstDtemps : stD.temps = st2.temps := by
          rw [hstD]
          rw [emitA_temps, emitA_temps, htr3, hstBtemps]
        obtain ⟨st5, hok5, htr5⟩ := (genStmtsA_spec es4 stD).1
          (by rw [hstDtemps]; omega)
        simp only [hok5]
        refine ⟨_, rfl, ?_⟩
        rw [freeTmpA_temps, emitA_temps, htr5, hstDtemps, ← htrC]
    · intro h
      cases elseBlock with
      | none =>
        simp only [needStmt] at h
        by_cases hcb : st.temps.length < needExpr condition
        · have herr := (genExprA_spec condition st).2 hcb
          simp [genStmt, herr]
        · push_neg at hcb
          obtain ⟨rC, st2, hokC, htrC⟩ := (genExprA_spec condition st).1 hcb
          have hlen2 : st2.temps.length + 1 = st.temps.length := by
            rw [htrC]; simp
          simp only [genStmt, hokC]
          set pE := label st2 "else" with hpE
          set pEnd := label pE.2 "endif" with hpEnd
          set stB := emit (emit pEnd.2 s!"\tcmp {rC}, #0") s!"\tbeq {pE.1}" with hstB
          have hstBtemps : stB.temps = st2.temps := by
            rw [hstB, hpEnd, hpE]
            simp [emitA_temps, labelA_temps]
          have herr3 := (genStmtsA_spec thenBlock stB).2 (by rw [hstBtemps]; omega)
          simp [herr3]
      | some es4 =>
        simp only [needStmt] at h
        by_cases hcb : st.temps.length < needExpr condition
        · have herr := (genExprA_spec condition st).2 hcb
          simp [genStmt, herr]
        · push_neg at hcb
          obtain ⟨rC, st2, hokC, htrC⟩ := (genExprA_spec condition st).1 hcb
          have hlen2 : st2.temps.length + 1 = st.temps.length := by
            rw [htrC]; simp
          simp only [genStmt, hokC]
          set pE := label st2 "else" with hpE
          set pEnd := label pE.2 "endif" with hpEnd
          set stB := emit (emit pEnd.2 s!"\tcmp {rC}, #0") s!"\tbeq {pE.1}" with hstB
          have hstBtemps : stB.temps = st2.temps := by
            rw [hstB, hpEnd, hpE]
            simp [emitA_temps, labelA_temps]
          by_cases htb : st2.temps.length < needStmts thenBlock
          · have herr3 := (genStmtsA_spec thenBlock stB).2 (by rw [hstBtemps]; omega)
            simp [herr3]
          · push_neg at htb
            obtain ⟨st3, hok3, htr3⟩ := (genStmtsA_spec thenBlock stB).1
              (by rw [hstBtemps]; omega)
            simp only [hok3]
            set stD := emit (emit st3 s!"\tb {pEnd.1}") s!"{pE.1}:" with hstD
            have hstDtemps : stD.temps = st2.temps := by
              rw [hstD]
              rw [emitA_temps, emitA_temps, htr3, hstBtemps]
            have herr5 := (genStmtsA_spec es4 stD).2 (by rw [hstDtemps]; omega)
            simp [herr5]
termination_by sizeOf s

/-- The `arm64.rs` statement loop: the pool is restored between
statements, so a list succeeds iff each statement fits. -/
theorem genStmtsA_spec (l : List Stmt) (st : CodegenState) :
    (needStmts l ≤ st.temps.length →
      ∃ st2, genStmts st l = .ok st2 ∧ st2.temps = st.temps) ∧
    (st.temps.length < needStmts l → genStmts st l = .error outOfRegsA) := by
  cases l with
  | nil =>
    constructor
    · intro h
      exact ⟨st, rfl, rfl⟩
    · intro h
      simp [needStmts] at h
  | cons s rest =>
    constructor
    · intro h
      simp only [needStmts, max_le_iff] at h
      obtain ⟨st2, hok2, htr2⟩ := (genStmtA_spec s st).1 h.1
      obtain ⟨st3, hok3, htr3⟩ := (genStmtsA_spec rest st2).1 (by rw [htr2]; exact h.2)
      exact ⟨st3, by simp [genStmts, hok2, hok3], by rw [htr3, htr2]⟩
    · intro h
      simp only [needStmts] at h
      by_cases hs : st.temps.length < needStmt s
      · have herr := (genStmtA_spec s st).2 hs
        simp [genStmts, herr]
      · push_neg at hs
        obtain ⟨st2, hok2, htr2⟩ := (genStmtA_spec s st).1 hs
        have herr := (genStmtsA_spec rest st2).2 (by rw [htr2]; omega)
        simp [genStmts, hok2, herr]
termination_by sizeOf l

end

/-- The `arm64.rs` `generate` succeeds exactly on the programs whose
register need fits the 7-register pool, and pool exhaustion is the
only failure. -/
theorem generateA_spec (stmts : List Stmt) :
    ((∃ asm, generate stmts = .ok asm) ↔ needStmts stmts ≤ 7) ∧
    (generate stmts = .error outOfRegsA ↔ 7 < needStmts stmts) := by
  have hlen : (emitPrologue CodegenState.new).temps.length = 7 := rfl
  by_cases h : needStmts stmts ≤ 7
  · obtain ⟨st2, hok, -⟩ :=
      (genStmtsA_spec stmts (emitPrologue CodegenState.new)).1 (by omega)
    refine ⟨⟨fun _ => h, fun _ => ?_⟩,
      ⟨fun herr => ?_, fun hlt => absurd hlt (by omega)⟩⟩
    · cases hg : generate stmts with
      | ok a => exact ⟨a, rfl⟩
      | error e => simp [generate, hok] at hg
    · simp [generate, hok] at herr
  · push_neg at h
    have herr := (genStmtsA_spec stmts (emitPrologue CodegenState.new)).2 (by omega)
    refine ⟨⟨fun hex => ?_, fun hle => absurd h (by omega)⟩,
      ⟨fun _ => by omega, fun _ => ?_⟩⟩
    · obtain ⟨asm, hok⟩ := hex
      simp [generate, herr] at hok
    · simp only [generate, herr]

end Arm64

/-- C9: in both backends code generation is characterized by the fixed
7-register scratch pool: a program whose evaluation ever needs more
than 7 simultaneously live scratch registers makes `generate` stop with
the detectable pool-exhaustion error (the `alloc_tmp` panic message,
`out of temporary registers` in `codegen.rs` and `out of registers` in
`arm64.rs`), and every program within the bound generates successfully
and returns assembly text. -/
theorem C9_theorem :
    (∀ stmts : List Ast.Stmt,
      ((∃ asm, Codegen.generate stmts = .ok asm) ↔
        Codegen.needStmts stmts ≤ 7) ∧
      (Codegen.generate stmts = .error Codegen.outOfRegs ↔
        7 < Codegen.needStmts stmts)) ∧
    (∀ stmts : List Parsing.Stmt,
      ((∃ asm, Arm64.generate stmts = .ok asm) ↔
        Arm64.needStmts stmts ≤ 7) ∧
      (Arm64.generate stmts = .error Arm64.outOfRegsA ↔
        7 < Arm64.needStmts stmts)) :=
  ⟨Codegen.generate_spec, Arm64.generateA_spec⟩

/-- C10: an identifier whose name has no allocated stack slot does not
fail code generation: `codegen.rs` emits a warning comment and the
constant 0, `arm64.rs` silently loads from offset 0 (`unwrap_or(0)`),
and a whole undeclared-variable program generates assembly text in both
backends. -/
theorem C10_theorem :
    (∀ (st : Codegen.CodegenState) (name : String),
      Codegen.lookupVar st name = none → st.tempRegs ≠ [] →
      ∃ r st2, Codegen.genExpr st (Ast.Expr.Identifier name) = .ok (r, st2) ∧
        st2.instrs = st.instrs ++
          [s!"\t// WARNING: variable '{name}' not found; using 0",
           s!"\tmov {r}, #0"]) ∧
    (∀ (st : Arm64.CodegenState) (name : String),
      st.vars.find? (fun p => p.1 == name) = none → st.temps ≠ [] →
      ∃ r st2, Arm64.genExpr st (Parsing.Expr.Identifier name) = .ok (r, st2) ∧
        st2.instrs = st.instrs ++ [s!"\tldr {r}, [sp, #{(0 : Int)}]"]) ∧
    (∃ asm, Codegen.generate [Ast.Stmt.Print (Ast.Expr.Identifier "a")] = .ok asm) ∧
    (∃ asm, Arm64.generate [Parsing.Stmt.Print (Parsing.Expr.Identifier "a")] =
      .ok asm) := by
  refine ⟨?_, ?_, ?_, ?_⟩
  · intro st name hlk hne
    obtain ⟨r, st2, ha⟩ := Codegen.allocTmp_nonempty st hne
    obtain ⟨-, hinstr, hvar, -⟩ := Codegen.allocTmp_ok ha
    have hlk2 : Codegen.lookupVar st2 name = none := by
      unfold Codegen.lookupVar at hlk ⊢
      rw [hvar]
      exact hlk
    have hgoal : Codegen.genExpr st (Ast.Expr.Identifier name) =
        .ok (r, Codegen.emit (Codegen.emit st2
          s!"\t// WARNING: variable '{name}' not found; using 0")
          s!"\tmov {r}, #0") := by
      simp only [Codegen.genExpr, ha, hlk2]
    refine ⟨r, _, hgoal, ?_⟩
    simp [Codegen.emit, hinstr]
  · intro st name hlk hne
    obtain ⟨r, st2, ha⟩ := Arm64.allocTmpA_nonempty st hne
    obtain ⟨-, hinstr, hvar, -⟩ := Arm64.allocTmpA_ok ha
    have hlk2 : st2.vars.find? (fun p => p.1 == name) = none := by
      rw [hvar]
      exact hlk
    have hgoal : Arm64.genExpr st (Parsing.Expr.Identifier name) =
        .ok (r, Arm64.emit st2 s!"\tldr {r}, [sp, #{(0 : Int)}]") := by
      simp only [Arm64.genExpr, ha, hlk2]
      rfl
    refine ⟨r, _, hgoal, ?_⟩
    simp [Arm64.emit, hinstr]
  · exact (Codegen.generate_spec _).1.mpr (by decide)
  · exact (Arm64.generateA_spec _).1.mpr (by decide)

/-- Witness for C10 at the initial code-generator states: the
undeclared identifier `a` generates the warning-and-zero pair in the
`codegen.rs` backend and the offset-0 load in the `arm64.rs` backend. -/
theorem C10_witness :
    (∃ r st2, Codegen.genExpr Codegen.CodegenState.new
        (Ast.Expr.Identifier "a") = .ok (r, st2) ∧
      st2.instrs = Codegen.CodegenState.new.instrs ++
        ["\t// WARNING: variable 'a' not found; using 0", s!"\tmov {r}, #0"]) ∧
    (∃ r st2, Arm64.genExpr Arm64.CodegenState.new
        (Parsing.Expr.Identifier "a") = .ok (r, st2) ∧
      st2.instrs = Arm64.CodegenState.new.instrs ++ [s!"\tldr {r}, [sp, #{(0 : Int)}]"]) :=
  ⟨C10_theorem.1 Codegen.CodegenState.new "a" rfl (by decide),
   C10_theorem.2.1 Arm64.CodegenState.new "a" rfl (by decide)⟩
